import Mathlib

/-!
# Request logger middleware (`middleware/logger/logger.go`)

A shallow embedding of `requestLoggerMiddleware.ServeHTTP`, `getPath` and
`Columnize`, together with the library routines they call
(`time.Duration.String`, the `fmt` verbs used by the format strings,
`strconv.Itoa`, `strings.TrimSpace`, `strings.Split` and
`columnize.SimpleFormat`).

Go strings are Lean strings; their length in runes is `String.length`.
A Go `interface{}` is an `Option Value`, `none` being the nil interface.
The handler is effectful: it is embedded as a state transformer over a
`World` that holds the request context, the number of clock readings taken
so far and the ordered list of everything the handler did (`Event`).
-/

namespace logger

/-! ## Values, durations and times -/

/-- A non-nil dynamic value stored in the context store or held by an
`interface{}` variable: a Go string, or any other value given by its
`%v` rendering. -/
inductive Value where
  | str (s : String)
  | other (rendered : String)
  deriving DecidableEq, Repr

/-- The `%v` rendering of a non-nil value. -/
def Value.render : Value → String
  | .str s => s
  | .other r => r

/-- The `%v` verb applied to an `interface{}`: a nil interface prints as
the marker `<nil>`. -/
def fmtV : Option Value → String
  | none => "<nil>"
  | some v => v.render

/-- A `time.Duration`: a signed count of nanoseconds. -/
abbrev Duration := Int

/-- The largest `time.Duration` (`1<<63 - 1`). -/
def maxDuration : Int := 2 ^ 63 - 1

/-- The smallest `time.Duration` (`-1 << 63`). -/
def minDuration : Int := -(2 ^ 63)

/-- A `time.Time` as returned by `time.Now()`: the civil date and time of
the wall clock reading, and the monotonic clock reading in nanoseconds. -/
structure Time where
  year : Nat
  month : Nat
  day : Nat
  hour : Nat
  minute : Nat
  second : Nat
  mono : Int
  deriving DecidableEq, Repr

/-- `Time.Sub` for two readings that both carry a monotonic clock value:
the difference of the monotonic readings, saturated to the range of
`time.Duration`. -/
def Time.Sub (t u : Time) : Duration :=
  let d := t.mono - u.mono
  if d > maxDuration then maxDuration
  else if d < minDuration then minDuration
  else d

/-! ## Decimal digits -/

/-- The byte `byte(d) + '0'` for a decimal digit `d`. -/
def digitChar (d : Nat) : Char :=
  Char.ofNat (d + 48)

/-- The loop of `fmtInt`: while `v > 0`, write the last digit of `v` in
front of the buffer and divide `v` by ten. The first argument bounds the
number of iterations. -/
def fmtIntLoop : Nat → Nat → List Char → List Char
  | 0, _, buf => buf
  | fuel + 1, v, buf =>
    if v > 0 then fmtIntLoop fuel (v / 10) (digitChar (v % 10) :: buf) else buf

/-- `fmtInt` of package `time`: formats `v` into the tail of the buffer. -/
def fmtInt (buf : List Char) (v : Nat) : List Char :=
  if v = 0 then '0' :: buf else fmtIntLoop v v buf

/-- The loop of `fmtFrac`, run `prec` times: the digit is written only once
a non-zero digit has been seen. Returns the buffer, the remaining value and
the `print` flag. -/
def fmtFracLoop : Nat → Nat → Bool → List Char → List Char × Nat × Bool
  | 0, v, print, buf => (buf, v, print)
  | prec + 1, v, print, buf =>
    let digit := v % 10
    let print := print || digit != 0
    fmtFracLoop prec (v / 10) print (if print then digitChar digit :: buf else buf)

/-- `fmtFrac` of package `time`: formats the fraction of `v / 10^prec` into
the tail of the buffer, omitting trailing zeros and, when the fraction is
zero, the decimal point. Returns the buffer and `v / 10^prec`. -/
def fmtFrac (buf : List Char) (v : Nat) (prec : Nat) : List Char × Nat :=
  let r := fmtFracLoop prec v false buf
  (if r.2.2 then '.' :: r.1 else r.1, r.2.1)

/-- The unsigned part of `Duration.format`, on `u = |d|`. -/
def formatUnsigned (u : Nat) : List Char :=
  if u < 1000000000 then
    if u = 0 then ['0', 's']
    else if u < 1000 then
      let r := fmtFrac ['n', 's'] u 0
      fmtInt r.1 r.2
    else if u < 1000000 then
      let r := fmtFrac ['µ', 's'] u 3
      fmtInt r.1 r.2
    else
      let r := fmtFrac ['m', 's'] u 6
      fmtInt r.1 r.2
  else
    let r := fmtFrac ['s'] u 9
    let w := fmtInt r.1 (r.2 % 60)
    let u := r.2 / 60
    if u > 0 then
      let w := fmtInt ('m' :: w) (u % 60)
      let u := u / 60
      if u > 0 then fmtInt ('h' :: w) u else w
    else w

/-- `time.Duration.String`: a rendering such as `72h3m0.5s`, `2ms`, `0s`. -/
def Duration.String (d : Duration) : String :=
  let w := formatUnsigned d.natAbs
  ⟨if d < 0 then '-' :: w else w⟩

/-- `strconv.Itoa`: the decimal rendering of an integer. -/
def Itoa (n : Int) : String :=
  let w := fmtInt [] n.natAbs
  ⟨if n < 0 then '-' :: w else w⟩

/-- A decimal number zero-padded on the left to at least `w` digits, as the
layout elements `2006`, `01`, `02`, `15`, `04` and `05` print it. -/
def zeroPad (w : Nat) (n : Nat) : List Char :=
  let ds := fmtInt [] n
  List.replicate (w - ds.length) '0' ++ ds

/-- `Time.Format` with the layout `2006/01/02 - 15:04:05`. -/
def Time.Format (t : Time) : String :=
  ⟨zeroPad 4 t.year ++ '/' :: zeroPad 2 t.month ++ '/' :: zeroPad 2 t.day
    ++ [' ', '-', ' '] ++ zeroPad 2 t.hour ++ ':' :: zeroPad 2 t.minute
    ++ ':' :: zeroPad 2 t.second⟩

/-! ## The `fmt` width flag -/

/-- A string verb with a width and no flag (`%4v`): spaces are written in
front of the operand until it is `w` runes wide. -/
def padLeft (w : Nat) (s : String) : String :=
  ⟨List.replicate (w - s.length) ' ' ++ s.data⟩

/-- A string verb with a width and the minus flag (`%-5s`): spaces are
written after the operand until it is `w` runes wide. -/
def padRight (w : Nat) (s : String) : String :=
  ⟨s.data ++ List.replicate (w - s.length) ' '⟩

/-! ## `strings.TrimSpace` and `strings.Split` -/

/-- `unicode.IsSpace`: the Unicode white space characters. -/
def isSpace (c : Char) : Bool :=
  let n := c.toNat
  (9 ≤ n && n ≤ 13) || n = 32 || n = 133 || n = 160 || n = 5760
    || (8192 ≤ n && n ≤ 8202) || n = 8232 || n = 8233 || n = 8239
    || n = 8287 || n = 12288

/-- `strings.TrimSpace` on the runes of a string: the leading white space
is dropped, then the trailing white space. -/
def trimRunes (l : List Char) : List Char :=
  ((l.dropWhile isSpace).reverse.dropWhile isSpace).reverse

/-- `strings.TrimSpace`: the string without its leading and trailing white
space. -/
def TrimSpace (s : String) : String :=
  ⟨trimRunes s.data⟩

/-- `strings.Split(s, "|")` on the runes of `s`: the pieces between the
occurrences of the delimiter; a string without delimiter is one piece. -/
def splitPipe : List Char → List (List Char)
  | [] => [[]]
  | c :: cs =>
    if c = '|' then [] :: splitPipe cs
    else
      match splitPipe cs with
      | [] => [[c]]
      | piece :: pieces => (c :: piece) :: pieces

/-- `strings.Split(line, config.Delim)` with the default delimiter `|`. -/
def Split (line : String) : List String :=
  (splitPipe line.data).map String.mk

/-! ## `github.com/ryanuber/columnize` with its default configuration

`DefaultConfig`: `Delim = "|"`, `Glue = "  "` (two spaces), `Prefix = ""`,
`Empty = ""`, `NoTrim = false`. -/

/-- The glue written between two columns. -/
def Glue : String := "  "

/-- `elementsFromLine`: the cells of a line, each trimmed of white space
(`Empty` is the empty string, so an empty cell stays empty). -/
def elementsFromLine (line : String) : List String :=
  (Split line).map TrimSpace

/-- `runeLen`: the number of runes of a string. -/
def runeLen (s : String) : Nat := s.length

/-- The inner loop of `widthsFromLines` over the cells of one line: a cell
beyond the known widths appends its length, a cell wider than the known
width replaces it. -/
def mergeWidths : List Nat → List Nat → List Nat
  | widths, [] => widths
  | [], l :: ls => l :: mergeWidths [] ls
  | w :: widths, l :: ls => (if w < l then l else w) :: mergeWidths widths ls

/-- `widthsFromLines`: how wide each column is, over all lines. -/
def widthsFromLines (lines : List String) : List Nat :=
  lines.foldl (fun widths line => mergeWidths widths ((elementsFromLine line).map runeLen)) []

/-- One verb of the format string that `stringFormat` builds: `%-<w>s`
followed by the glue, or the closing `%s\n`. -/
inductive Verb where
  | padded (w : Nat)
  | last
  deriving DecidableEq, Repr

/-- The loop of `stringFormat` from index `i` on, the second list being
`widths[i:]`: it runs while `i < columns && i < len(widths)`. -/
def stringFormatFrom (columns : Nat) : Nat → List Nat → List Verb
  | _, [] => []
  | i, w :: widths =>
    if i < columns then
      (if i = columns - 1 then Verb.last else Verb.padded w)
        :: stringFormatFrom columns (i + 1) widths
    else []

/-- `stringFormat`: the format string for a line of `columns` cells, as the
list of its verbs (the prefix is empty). -/
def stringFormat (widths : List Nat) (columns : Nat) : List Verb :=
  stringFormatFrom columns 0 widths

/-- `tooLarge` of package `fmt`: whether a number is too large to be used
as a formatting width. -/
def tooLarge (x : Nat) : Bool :=
  x > 1000000

/-- The loop of `parsenum` of package `fmt` over the digits of a width:
before a digit is added, the number read so far is tested with `tooLarge`,
and the parse gives up when the test holds. -/
def parsenumLoop : List Char → Nat → Option Nat
  | [], num => some num
  | c :: cs, num =>
    if tooLarge num then none else parsenumLoop cs (num * 10 + (c.toNat - 48))

/-- `parsenum` of package `fmt` on the digits that `stringFormat` wrote for
a width: the width, or nothing when the parse gives up. -/
def parsenum (digits : List Char) : Option Nat :=
  parsenumLoop digits 0

/-- The operands that `fmt` lists after `%!(EXTRA `: each string operand as
`string=` and its text, separated by a comma and a space. -/
def extraArgs : List String → String
  | [] => ""
  | [e] => "string=" ++ e
  | e :: elems => "string=" ++ e ++ ", " ++ extraArgs elems

/-- `fmt.Fprintf(buf, stringfmt, elems...)`: each verb consumes one cell.
The width of a padded verb is parsed back from its decimal digits (a width
of zero pads nothing, as the flag `0` that `fmt` reads there). When the
parse gives up, `fmt` drops the rest of the format: it prints `%!(NOVERB)`
and then the operands not yet consumed as `%!(EXTRA ...)`. `stringFormat`
never builds more verbs than there are cells. -/
def Fprintf : List Verb → List String → String
  | Verb.padded w :: verbs, e :: elems =>
    match parsenum (fmtInt [] w) with
    | some wid => padRight wid e ++ Glue ++ Fprintf verbs elems
    | none => "%!(NOVERB)" ++ "%!(EXTRA " ++ extraArgs (e :: elems) ++ ")"
  | Verb.last :: verbs, e :: elems => e ++ "\n" ++ Fprintf verbs elems
  | _, _ => ""

/-- The removal of one trailing newline at the end of `Format`. -/
def dropTrailingNewline (result : String) : String :=
  match result.data.reverse with
  | '\n' :: rest => ⟨rest.reverse⟩
  | _ => result

/-- `columnize.Format(lines, nil)`: every line is printed with the format
for its number of cells, and one trailing newline is removed. -/
def Format (lines : List String) : String :=
  let widths := widthsFromLines lines
  let result := lines.foldl
    (fun buf line =>
      let elems := elementsFromLine line
      buf ++ Fprintf (stringFormat widths elems.length) elems) ""
  dropTrailingNewline result

/-- `columnize.SimpleFormat`. -/
def SimpleFormat (lines : List String) : String :=
  Format lines

/-! ## `Columnize` -/

/-- The title row that `Columnize` hands to the aligner. -/
def columnizeTitles (message headerMessage : Option Value) : String :=
  let titles := "Time | Status | Latency | IP | Method | Path"
  let titles := if message.isSome then titles ++ " | Message" else titles
  if headerMessage.isSome then titles ++ " | HeaderMessage" else titles

/-- The value row that `Columnize` hands to the aligner. -/
def columnizeLine (nowFormatted : String) (latency : Duration)
    (status ip method path : String) (message headerMessage : Option Value) : String :=
  let line := nowFormatted ++ " | " ++ status ++ " | " ++ padLeft 4 (Duration.String latency)
    ++ " | " ++ ip ++ " | " ++ method ++ " | " ++ path
  let line := if message.isSome then line ++ (" | " ++ fmtV message) else line
  if headerMessage.isSome then line ++ (" | " ++ fmtV headerMessage) else line

/-- `Columnize`: the arguments as two aligned rows, with a new line
appended at the end. -/
def Columnize (nowFormatted : String) (latency : Duration)
    (status ip method path : String) (message headerMessage : Option Value) : String :=
  let titles := columnizeTitles message headerMessage
  let line := columnizeLine nowFormatted latency status ip method path message headerMessage
  let outputC := [titles, line]
  SimpleFormat outputC ++ "\n"

/-! ## The request context, the configuration and the handler's actions -/

/-- The route a request matched (`*context.Route`), known by its name. -/
structure Route where
  name : String
  deriving DecidableEq, Repr

/-- What the handler can observe of a `*context.Context` at one moment. -/
structure Context where
  /-- The result of `ctx.RemoteAddr()`. -/
  RemoteAddr : String
  /-- The result of `ctx.Method()`. -/
  Method : String
  /-- The result of `ctx.Path()`. -/
  Path : String
  /-- The result of `ctx.Request().URL.RequestURI()`. -/
  RequestURI : String
  /-- The result of `ctx.GetStatusCode()`. -/
  StatusCode : Int
  /-- The result of `ctx.Values().Get(key)`: nil for an absent key. -/
  Values : String → Option Value
  /-- The result of `ctx.GetHeader(key)`: empty for an absent header. -/
  Header : String → String
  /-- The result of `ctx.GetCurrentRoute()`: nil when no route matched. -/
  CurrentRoute : Option Route
  /-- The result of `ctx.HandlerIndex(n)`. -/
  HandlerIndex : Int → Int

/-- The fields of `Config` that `logger.go` reads. The two callbacks are
opaque Go functions: the field says whether the function is non-nil, and
a call of it is recorded with its arguments. -/
structure Config where
  Status : Bool
  IP : Bool
  Method : Bool
  Path : Bool
  PathAfterHandler : Bool
  Query : Bool
  Columns : Bool
  TraceRoute : Bool
  MessageContextKeys : List String
  MessageHeaderKeys : List String
  LogFunc : Bool
  LogFuncCtx : Bool
  skip : Option (Context → Bool)

/-- The collaborators of the handler: the rest of the handler chain run by
`ctx.Next()`, the successive readings of `time.Now()`, and the host
predicate `context.StatusCodeNotSuccessful`. -/
structure Host where
  Next : Context → Context
  clock : Nat → Time
  StatusCodeNotSuccessful : Int → Bool

/-- One action of the handler on its collaborators. -/
inductive Event where
  /-- The call `l.config.skip(ctx)`. -/
  | skip
  /-- The call `time.Now()` and its result. -/
  | Now (t : Time)
  | RemoteAddr
  | Method
  | Path
  | RequestURI
  /-- The call `ctx.Next()`. -/
  | Next
  | GetStatusCode
  | ValuesGet (key : String)
  | GetHeader (key : String)
  | LogFunc (endTime : Time) (latency : Duration) (status ip method path : String)
      (message headerMessage : Option Value)
  | LogFuncCtx (latency : Duration)
  /-- The call `Logger().Printer.Write(bytes)`. -/
  | Write (output : String)
  | Info (line : String)
  | Warn (line : String)
  | GetCurrentRoute
  | HandlerIndex (n : Int)
  /-- The call `route.Trace(printer, index)`. -/
  | Trace (route : Route) (index : Int)
  deriving DecidableEq, Repr

/-- The state the handler runs in. -/
structure World where
  ctx : Context
  clockReads : Nat
  trace : List Event

/-- The handler's computations. -/
abbrev M := StateM World

/-- Record one action. -/
def emit (e : Event) : M Unit :=
  modify fun w => { w with trace := w.trace ++ [e] }

/-- The call `time.Now()`. -/
def timeNow (h : Host) : M Time := do
  let w ← get
  let t := h.clock w.clockReads
  set { w with clockReads := w.clockReads + 1, trace := w.trace ++ [Event.Now t] }
  pure t

/-- The call `ctx.Next()`. -/
def ctxNext (h : Host) : M Unit :=
  modify fun w => { w with ctx := h.Next w.ctx, trace := w.trace ++ [Event.Next] }

/-- An accessor call on the context: the action is recorded and the result
read from the current context. -/
def ctxRead {α : Type} (e : Event) (f : Context → α) : M α := do
  emit e
  let w ← get
  pure (f w.ctx)

/-- `requestLoggerMiddleware.getPath`. -/
def getPath (cfg : Config) : M String :=
  if cfg.Query then ctxRead Event.RequestURI Context.RequestURI
  else ctxRead Event.Path Context.Path

/-- The loop over `MessageContextKeys`. -/
def messageLoop : List String → Option Value → M (Option Value)
  | [], message => pure message
  | key :: keys, message => do
    let msg ← ctxRead (Event.ValuesGet key) (fun ctx => ctx.Values key)
    if message.isNone then messageLoop keys msg
    else messageLoop keys (some (Value.str (" " ++ fmtV message ++ " " ++ fmtV msg)))

/-- The loop over `MessageHeaderKeys`; the header, a string, is stored in
the `interface{}` variable as a non-nil value. -/
def headerMessageLoop : List String → Option Value → M (Option Value)
  | [], headerMessage => pure headerMessage
  | key :: keys, headerMessage => do
    let msg ← ctxRead (Event.GetHeader key) (fun ctx => ctx.Header key)
    if headerMessage.isNone then headerMessageLoop keys (some (Value.str msg))
    else headerMessageLoop keys (some (Value.str (" " ++ fmtV headerMessage ++ " " ++ msg)))

/-- The line of the plain path: `"%v %4v %s %s %s"`, then the two optional
aggregates. -/
def plainLine (latency : Duration) (status ip method path : String)
    (message headerMessage : Option Value) : String :=
  let line := status ++ " " ++ padLeft 4 (Duration.String latency) ++ " " ++ ip ++ " "
    ++ method ++ " " ++ path
  let line := if message.isSome then line ++ (" " ++ fmtV message) else line
  if headerMessage.isSome then line ++ (" " ++ fmtV headerMessage) else line

/-- The trace-route step at the end of `ServeHTTP`. -/
def traceRoute (cfg : Config) : M Unit := do
  if cfg.TraceRoute then
    let route ← ctxRead Event.GetCurrentRoute Context.CurrentRoute
    match route with
    | none => pure ()
    | some _ =>
      let route ← ctxRead Event.GetCurrentRoute Context.CurrentRoute
      let index ← ctxRead (Event.HandlerIndex (-1)) (fun ctx => ctx.HandlerIndex (-1))
      match route with
      | none => pure ()
      | some r => emit (Event.Trace r index)

/-- The part of `ServeHTTP` after the skip test. -/
def serveLogged (h : Host) (cfg : Config) : M Unit := do
  let startTime ← timeNow h
  let ip ← (if cfg.IP then ctxRead Event.RemoteAddr Context.RemoteAddr else pure "")
  let method ← (if cfg.Method then ctxRead Event.Method Context.Method else pure "")
  let path ← (if cfg.Path then getPath cfg else pure "")
  ctxNext h
  let endTime ← timeNow h
  let latency := endTime.Sub startTime
  let path ← (if cfg.PathAfterHandler then getPath cfg else pure path)
  let status ← (if cfg.Status then
      (do let code ← ctxRead Event.GetStatusCode Context.StatusCode
          pure (Itoa code))
    else pure "")
  let message ← messageLoop cfg.MessageContextKeys none
  let headerMessage ← headerMessageLoop cfg.MessageHeaderKeys none
  if cfg.LogFunc then
    emit (Event.LogFunc endTime latency status ip method path message headerMessage)
  else if cfg.LogFuncCtx then
    emit (Event.LogFuncCtx latency)
  else if cfg.Columns then
    let endTimeFormatted := endTime.Format
    let output := Columnize endTimeFormatted latency status ip method path message headerMessage
    emit (Event.Write output)
  else
    let line := plainLine latency status ip method path message headerMessage
    let code ← ctxRead Event.GetStatusCode Context.StatusCode
    (if h.StatusCodeNotSuccessful code then emit (Event.Warn line)
      else emit (Event.Info line))
    traceRoute cfg

/-- `requestLoggerMiddleware.ServeHTTP`. -/
def ServeHTTP (h : Host) (cfg : Config) : M Unit := do
  match cfg.skip with
  | some skip =>
    emit Event.skip
    let w ← get
    if skip w.ctx then ctxNext h
    else serveLogged h cfg
  | none => serveLogged h cfg

/-- The world in which a request arrives: nothing done yet. -/
def World.start (ctx : Context) : World :=
  { ctx := ctx, clockReads := 0, trace := [] }

/-- Everything the handler does for a request, in order. -/
def run (h : Host) (cfg : Config) (ctx : Context) : List Event :=
  ((ServeHTTP h cfg).run (World.start ctx)).2.trace

/-! ## What a run hands to the output strategy

The functions below describe, without state, the values that `ServeHTTP`
computes; `serveLogged_run` proves that the handler computes them. `ctx` is
the context when the request arrives, `ctx'` the context after the rest of
the chain ran. -/

/-- Whether the skip predicate is set and holds of the request. -/
def skipped (cfg : Config) (ctx : Context) : Bool :=
  match cfg.skip with
  | some skip => skip ctx
  | none => false

/-- The accessor that `getPath` calls. -/
def pathEvent (cfg : Config) : Event :=
  if cfg.Query then Event.RequestURI else Event.Path

/-- The value that `getPath` returns on a context. -/
def pathOf (cfg : Config) (ctx : Context) : String :=
  if cfg.Query then ctx.RequestURI else ctx.Path

/-- The value of the variable `ip` at the output. -/
def capturedIP (cfg : Config) (ctx : Context) : String :=
  if cfg.IP then ctx.RemoteAddr else ""

/-- The value of the variable `method` at the output. -/
def capturedMethod (cfg : Config) (ctx : Context) : String :=
  if cfg.Method then ctx.Method else ""

/-- The value of the variable `path` at the output. -/
def capturedPath (cfg : Config) (ctx ctx' : Context) : String :=
  if cfg.PathAfterHandler then pathOf cfg ctx'
  else if cfg.Path then pathOf cfg ctx else ""

/-- The value of the variable `status` at the output. -/
def capturedStatus (cfg : Config) (ctx' : Context) : String :=
  if cfg.Status then Itoa ctx'.StatusCode else ""

/-- The value of `message` after the loop over the given keys, started
with the given value. -/
def contextAggregate (ctx' : Context) : List String → Option Value → Option Value
  | [], message => message
  | key :: keys, message =>
    if message.isNone then contextAggregate ctx' keys (ctx'.Values key)
    else contextAggregate ctx' keys
      (some (Value.str (" " ++ fmtV message ++ " " ++ fmtV (ctx'.Values key))))

/-- The value of `headerMessage` after the loop over the given keys,
started with the given value. -/
def headerAggregate (ctx' : Context) : List String → Option Value → Option Value
  | [], headerMessage => headerMessage
  | key :: keys, headerMessage =>
    if headerMessage.isNone then headerAggregate ctx' keys (some (Value.str (ctx'.Header key)))
    else headerAggregate ctx' keys
      (some (Value.str (" " ++ fmtV headerMessage ++ " " ++ ctx'.Header key)))

/-- The accessor calls made before `ctx.Next()`, after the first clock
reading. -/
def beforeEvents (cfg : Config) : List Event :=
  (if cfg.IP then [Event.RemoteAddr] else [])
    ++ (if cfg.Method then [Event.Method] else [])
    ++ (if cfg.Path then [pathEvent cfg] else [])

/-- The accessor calls made after the second clock reading and before the
output. -/
def afterEvents (cfg : Config) : List Event :=
  (if cfg.PathAfterHandler then [pathEvent cfg] else [])
    ++ (if cfg.Status then [Event.GetStatusCode] else [])
    ++ cfg.MessageContextKeys.map Event.ValuesGet
    ++ cfg.MessageHeaderKeys.map Event.GetHeader

/-- The actions of the trace-route step. -/
def traceEvents (cfg : Config) (ctx' : Context) : List Event :=
  if cfg.TraceRoute then
    match ctx'.CurrentRoute with
    | none => [Event.GetCurrentRoute]
    | some r => [Event.GetCurrentRoute, Event.GetCurrentRoute, Event.HandlerIndex (-1),
        Event.Trace r (ctx'.HandlerIndex (-1))]
  else []

/-- The one call that emits the log, for the clock readings `startTime` and
`endTime`. -/
def outputEvent (h : Host) (cfg : Config) (ctx ctx' : Context) (startTime endTime : Time) :
    Event :=
  let latency := endTime.Sub startTime
  let status := capturedStatus cfg ctx'
  let ip := capturedIP cfg ctx
  let method := capturedMethod cfg ctx
  let path := capturedPath cfg ctx ctx'
  let message := contextAggregate ctx' cfg.MessageContextKeys none
  let headerMessage := headerAggregate ctx' cfg.MessageHeaderKeys none
  if cfg.LogFunc then
    Event.LogFunc endTime latency status ip method path message headerMessage
  else if cfg.LogFuncCtx then Event.LogFuncCtx latency
  else if cfg.Columns then
    Event.Write (Columnize endTime.Format latency status ip method path message headerMessage)
  else if h.StatusCodeNotSuccessful ctx'.StatusCode then
    Event.Warn (plainLine latency status ip method path message headerMessage)
  else Event.Info (plainLine latency status ip method path message headerMessage)

/-- Whether the handler reaches the plain path. -/
def plainPath (cfg : Config) : Bool :=
  !cfg.LogFunc && !cfg.LogFuncCtx && !cfg.Columns

/-- The actions from the output on. -/
def emissionEvents (h : Host) (cfg : Config) (ctx ctx' : Context) (startTime endTime : Time) :
    List Event :=
  if plainPath cfg then
    [Event.GetStatusCode, outputEvent h cfg ctx ctx' startTime endTime] ++ traceEvents cfg ctx'
  else [outputEvent h cfg ctx ctx' startTime endTime]

/-- Every action of a request that is not skipped, after the skip test. -/
def loggedEvents (h : Host) (cfg : Config) (ctx : Context) (reads : Nat) : List Event :=
  [Event.Now (h.clock reads)] ++ beforeEvents cfg ++ [Event.Next, Event.Now (h.clock (reads + 1))]
    ++ afterEvents cfg
    ++ emissionEvents h cfg ctx (h.Next ctx) (h.clock reads) (h.clock (reads + 1))

/-- The events that emit a log: a callback call or a call on the sink that
carries the log. -/
def Event.isOutput : Event → Bool
  | Event.LogFunc .. => true
  | Event.LogFuncCtx .. => true
  | Event.Write .. => true
  | Event.Info .. => true
  | Event.Warn .. => true
  | _ => false

/-- The actions of the skip test of a request that is not skipped. -/
def skipEvents (cfg : Config) : List Event :=
  if cfg.skip.isSome then [Event.skip] else []

/-- The suffix that the plain line gets for an aggregate: nothing for a nil
aggregate, a space and the rendering otherwise. -/
def aggregateSuffix : Option Value → String
  | none => ""
  | some v => " " ++ v.render

/-- The cells of the title row without optional column. -/
def baseTitles : List String :=
  ["Time", "Status", "Latency", "IP", "Method", "Path"]

/-! ## The rows of `Columnize` -/

/-- The characters that `Duration.String` writes. -/
def isDurationChar (c : Char) : Bool :=
  (48 ≤ c.toNat && c.toNat ≤ 57) || c = '.' || c = 'n' || c = 'µ' || c = 'm' || c = 's'
    || c = 'h' || c = '-'

/-- The runes of cells joined by ` | `, as the format strings of
`Columnize` write them. -/
def joinCells : List (List Char) → List Char
  | [] => []
  | [c] => c
  | c :: c' :: cs => c ++ ' ' :: '|' :: ' ' :: joinCells (c' :: cs)

/-- The cell that an aggregate adds to the value row: none for a nil
aggregate. -/
def optionalCell : Option Value → List String
  | none => []
  | some v => [v.render]

/-- The strings that `Columnize` receives, the latency apart: the formatted
time, the four fields and the rendering of each non-nil aggregate. -/
def textFields (nowFormatted status ip method path : String)
    (message headerMessage : Option Value) : List String :=
  [nowFormatted, status, ip, method, path] ++ optionalCell message ++ optionalCell headerMessage

/-- The cells of the title row. -/
def titleCells (message headerMessage : Option Value) : List String :=
  baseTitles ++ (if message.isSome then ["Message"] else [])
    ++ (if headerMessage.isSome then ["HeaderMessage"] else [])

/-- The cells of the value row when no field holds a pipe: the trimmed
fields in the order of the format string, the latency as `Duration.String`
renders it. -/
def valueCells (nowFormatted : String) (latency : Duration) (status ip method path : String)
    (message headerMessage : Option Value) : List String :=
  [TrimSpace nowFormatted, TrimSpace status, Duration.String latency, TrimSpace ip,
    TrimSpace method, TrimSpace path]
    ++ (optionalCell message).map TrimSpace ++ (optionalCell headerMessage).map TrimSpace

/-- The width of each column of two rows: the rune length of the wider of
the two cells. -/
def columnWidths (titles values : List String) : List Nat :=
  List.zipWith (fun t v => max (runeLen t) (runeLen v)) titles values

/-- A row as the aligner is specified to print it, without its newline:
every cell but the last is padded with spaces to the width of its column
and followed by the glue, the last cell is written as it is. -/
def alignedRow : List Nat → List String → String
  | _, [e] => e
  | w :: widths, e :: elems => padRight w e ++ Glue ++ alignedRow widths elems
  | _, _ => ""

/-! ## The record handed to the output strategy, sink calls, path reads -/

/-- The call of the output strategy that the configuration selects, on the
given record: the line callback if set, otherwise the context callback if
set, otherwise the write of the table if `Columns` is set, otherwise `Warn`
or `Info` of the plain line according to the host predicate on `code`. -/
def strategyCall (h : Host) (cfg : Config) (code : Int) (endTime : Time) (latency : Duration)
    (status ip method path : String) (message headerMessage : Option Value) : Event :=
  if cfg.LogFunc then
    Event.LogFunc endTime latency status ip method path message headerMessage
  else if cfg.LogFuncCtx then Event.LogFuncCtx latency
  else if cfg.Columns then
    Event.Write (Columnize endTime.Format latency status ip method path message headerMessage)
  else if h.StatusCodeNotSuccessful code then
    Event.Warn (plainLine latency status ip method path message headerMessage)
  else Event.Info (plainLine latency status ip method path message headerMessage)

/-- The callback calls and the operations on the sink: the emissions and
the call of `Trace`, which prints on the sink's printer. -/
def Event.isSinkOrCallback : Event → Bool
  | Event.Trace .. => true
  | e => e.isOutput

/-- The calls that the trace-route step makes on the route: `Trace`, and
`HandlerIndex` for its argument. -/
def Event.isTraceStep : Event → Bool
  | Event.Trace .. => true
  | Event.HandlerIndex .. => true
  | _ => false

/-- The two accessors that `getPath` may call. -/
def Event.isPathRead : Event → Bool
  | Event.Path => true
  | Event.RequestURI => true
  | _ => false

/-- The call of `Trace` that the trace-route step makes, if any. -/
def traceCalls (cfg : Config) (ctx' : Context) : List Event :=
  if cfg.TraceRoute then
    match ctx'.CurrentRoute with
    | none => []
    | some r => [Event.Trace r (ctx'.HandlerIndex (-1))]
  else []

/-- The clock readings and the call of the rest of the chain. -/
def Event.isClockOrNext : Event → Bool
  | Event.Now .. => true
  | Event.Next => true
  | _ => false

/-- The number that a string of decimal digits denotes. -/
def decimalValue (digits : List Char) : Nat :=
  digits.foldl (fun acc c => 10 * acc + (c.toNat - 48)) 0

/-- What the handler does before `ctx.Next()`. -/
def eventsBeforeNext (h : Host) (cfg : Config) : List Event :=
  skipEvents cfg ++ [Event.Now (h.clock 0)] ++ beforeEvents cfg

/-- What the handler does after `ctx.Next()` returned. -/
def eventsAfterNext (h : Host) (cfg : Config) (ctx : Context) : List Event :=
  [Event.Now (h.clock 1)] ++ afterEvents cfg
    ++ emissionEvents h cfg ctx (h.Next ctx) (h.clock 0) (h.clock 1)

/-! ## Example requests -/

/-- A request `GET /health` from `10.0.0.5` with an empty context store and
no headers, matched by a route. -/
def healthContext : Context :=
  { RemoteAddr := "10.0.0.5", Method := "GET", Path := "/health", RequestURI := "/health",
    StatusCode := 200, Values := fun _ => none, Header := fun _ => "",
    CurrentRoute := some ⟨"health"⟩, HandlerIndex := fun _ => 1 }

/-- A host whose handler chain sets the status code to `code`, whose clock
advances by `step` nanoseconds from one reading to the next, and for which
the status codes from 400 on are not successful. -/
def exampleHost (code : Int) (step : Int) : Host :=
  { Next := fun ctx => { ctx with StatusCode := code },
    clock := fun n => ⟨2024, 3, 9, 15, 4, 5, step * n⟩,
    StatusCodeNotSuccessful := fun c => decide (400 ≤ c) }

/-- All capture fields enabled, plain output, no callbacks, no skip
predicate, no message keys. -/
def allFieldsConfig : Config :=
  { Status := true, IP := true, Method := true, Path := true, PathAfterHandler := false,
    Query := false, Columns := false, TraceRoute := false, MessageContextKeys := [],
    MessageHeaderKeys := [], LogFunc := false, LogFuncCtx := false, skip := none }

/-- The request `healthContext` with `a = "x"` and `b = "y"` in the context
store and in the headers. -/
def xyContext : Context :=
  { healthContext with
    Values := fun key =>
      if key = "a" then some (Value.str "x")
      else if key = "b" then some (Value.str "y") else none,
    Header := fun key => if key = "a" then "x" else if key = "b" then "y" else "" }

/-- The request `healthContext` with the empty string stored under `a` in
the context store. -/
def emptyValueContext : Context :=
  { healthContext with Values := fun key => if key = "a" then some (Value.str "") else none }

/-- A field of 10000010 runes, none of them white space or a pipe: one rune
more than the widest cell for which `fmt` still parses the width. -/
def wideField : String :=
  ⟨List.replicate 10000010 'a'⟩

/-- A skip predicate that holds of every request. -/
def skipAll : Context → Bool := fun _ => true

/-! ## The handler computes these values -/

theorem emit_run (e : Event) (w : World) :
    (emit e).run w = ((), { w with trace := w.trace ++ [e] }) := rfl

theorem ctxRead_run {α : Type} (e : Event) (f : Context → α) (w : World) :
    (ctxRead e f).run w = (f w.ctx, { w with trace := w.trace ++ [e] }) := rfl

theorem timeNow_run (h : Host) (w : World) :
    (timeNow h).run w = (h.clock w.clockReads,
      { w with clockReads := w.clockReads + 1,
               trace := w.trace ++ [Event.Now (h.clock w.clockReads)] }) := rfl

theorem ctxNext_run (h : Host) (w : World) :
    (ctxNext h).run w
      = ((), { w with ctx := h.Next w.ctx, trace := w.trace ++ [Event.Next] }) := rfl

theorem getPath_run (cfg : Config) (w : World) :
    (getPath cfg).run w = (pathOf cfg w.ctx, { w with trace := w.trace ++ [pathEvent cfg] }) := by
  unfold getPath pathOf pathEvent
  cases cfg.Query <;> simp [ctxRead_run]

theorem messageLoop_run (keys : List String) (message : Option Value) (w : World) :
    (messageLoop keys message).run w =
      (contextAggregate w.ctx keys message,
        { w with trace := w.trace ++ keys.map Event.ValuesGet }) := by
  induction keys generalizing message w with
  | nil => simp [messageLoop, contextAggregate, StateT.run_pure]
  | cons key keys ih =>
    simp only [messageLoop, contextAggregate, StateT.run_bind, ctxRead_run]
    cases hm : message.isNone <;> simp [ih, Id.bind_eq]

theorem headerMessageLoop_run (keys : List String) (headerMessage : Option Value) (w : World) :
    (headerMessageLoop keys headerMessage).run w =
      (headerAggregate w.ctx keys headerMessage,
        { w with trace := w.trace ++ keys.map Event.GetHeader }) := by
  induction keys generalizing headerMessage w with
  | nil => simp [headerMessageLoop, headerAggregate, StateT.run_pure]
  | cons key keys ih =>
    simp only [headerMessageLoop, headerAggregate, StateT.run_bind, ctxRead_run]
    cases hm : headerMessage.isNone <;> simp [ih, Id.bind_eq]

theorem traceRoute_run (cfg : Config) (w : World) :
    (traceRoute cfg).run w = ((), { w with trace := w.trace ++ traceEvents cfg w.ctx }) := by
  unfold traceRoute traceEvents
  cases cfg.TraceRoute
  · simp [StateT.run_pure]
  · cases hr : w.ctx.CurrentRoute <;>
      simp [StateT.run_bind, StateT.run_pure, ctxRead_run, emit_run, hr]

theorem optionalRead_run {α : Type} (c : Bool) (m : M α) (d : α) (e : Event)
    (f : Context → α) (hm : ∀ w, m.run w = (f w.ctx, { w with trace := w.trace ++ [e] }))
    (w : World) :
    (if c = true then m else pure d).run w =
      (if c = true then f w.ctx else d,
        { w with trace := w.trace ++ (if c = true then [e] else []) }) := by
  cases c <;> simp [StateT.run_pure, hm]

theorem statusRead_run (c : Bool) (w : World) :
    (if c = true then
        (do let code ← ctxRead Event.GetStatusCode Context.StatusCode
            pure (Itoa code))
      else pure "").run w =
      (if c = true then Itoa w.ctx.StatusCode else "",
        { w with trace := w.trace ++ (if c = true then [Event.GetStatusCode] else []) }) := by
  cases c <;> simp [StateT.run_pure, StateT.run_bind, ctxRead_run]

theorem pathAfter_run (cfg : Config) (path : String) (w : World) :
    (if cfg.PathAfterHandler = true then getPath cfg else pure path).run w =
      (if cfg.PathAfterHandler = true then pathOf cfg w.ctx else path,
        { w with trace := w.trace ++ (if cfg.PathAfterHandler = true then [pathEvent cfg] else []) }) :=
  optionalRead_run cfg.PathAfterHandler (getPath cfg) path (pathEvent cfg) (pathOf cfg)
    (getPath_run cfg) w

theorem severity_run (c : Bool) (a b : Event) (w : World) :
    (if c = true then emit a else emit b).run w =
      ((), { w with trace := w.trace ++ [if c = true then a else b] }) := by
  cases c <;> simp [emit_run]

theorem serveLogged_run (h : Host) (cfg : Config) (w : World) :
    (serveLogged h cfg).run w =
      ((), { ctx := h.Next w.ctx, clockReads := w.clockReads + 2,
             trace := w.trace ++ loggedEvents h cfg w.ctx w.clockReads }) := by
  unfold serveLogged loggedEvents emissionEvents outputEvent beforeEvents afterEvents plainPath
    capturedIP capturedMethod capturedPath capturedStatus
  simp only [StateT.run_bind, timeNow_run, ctxNext_run, Id.bind_eq,
    optionalRead_run cfg.IP _ "" Event.RemoteAddr Context.RemoteAddr (ctxRead_run _ _),
    optionalRead_run cfg.Method _ "" Event.Method Context.Method (ctxRead_run _ _),
    optionalRead_run cfg.Path _ "" (pathEvent cfg) (pathOf cfg) (getPath_run cfg),
    pathAfter_run, statusRead_run, messageLoop_run, headerMessageLoop_run]
  cases cfg.LogFunc <;> cases cfg.LogFuncCtx <;> cases cfg.Columns <;>
    simp [StateT.run_bind, ctxRead_run, emit_run, traceRoute_run, severity_run]

theorem ServeHTTP_run_skipped (h : Host) (cfg : Config) (skip : Context → Bool) (w : World)
    (hs : cfg.skip = some skip) (ht : skip w.ctx = true) :
    (ServeHTTP h cfg).run w =
      ((), { w with ctx := h.Next w.ctx, trace := w.trace ++ [Event.skip, Event.Next] }) := by
  unfold ServeHTTP
  simp [hs, StateT.run_bind, emit_run, ctxNext_run, ht]

theorem ServeHTTP_run_logged (h : Host) (cfg : Config) (w : World)
    (hs : skipped cfg w.ctx = false) :
    (ServeHTTP h cfg).run w =
      ((), { ctx := h.Next w.ctx, clockReads := w.clockReads + 2,
             trace := w.trace ++ (skipEvents cfg ++ loggedEvents h cfg w.ctx w.clockReads) }) := by
  unfold ServeHTTP skipEvents
  unfold skipped at hs
  cases hc : cfg.skip with
  | none => simp [serveLogged_run]
  | some skip =>
    rw [hc] at hs
    simp only at hs
    simp [StateT.run_bind, emit_run, hs, serveLogged_run]

theorem run_logged (h : Host) (cfg : Config) (ctx : Context) (hs : skipped cfg ctx = false) :
    run h cfg ctx = skipEvents cfg ++ loggedEvents h cfg ctx 0 := by
  unfold run
  rw [ServeHTTP_run_logged h cfg (World.start ctx) hs]
  simp [World.start]

theorem outputEvent_isOutput (h : Host) (cfg : Config) (ctx ctx' : Context) (t₀ t₁ : Time) :
    (outputEvent h cfg ctx ctx' t₀ t₁).isOutput = true := by
  unfold outputEvent
  cases cfg.LogFunc <;> cases cfg.LogFuncCtx <;> cases cfg.Columns <;>
    cases h.StatusCodeNotSuccessful ctx'.StatusCode <;> simp [Event.isOutput]

theorem filter_isOutput_map (α : Type) (f : α → Event) (l : List α)
    (hf : ∀ a, (f a).isOutput = false) : (l.map f).filter Event.isOutput = [] := by
  induction l with
  | nil => rfl
  | cons a l ih => simp [List.filter, hf a, ih]

theorem filter_isOutput_logged (h : Host) (cfg : Config) (ctx : Context) (reads : Nat) :
    (skipEvents cfg ++ loggedEvents h cfg ctx reads).filter Event.isOutput =
      [outputEvent h cfg ctx (h.Next ctx) (h.clock reads) (h.clock (reads + 1))] := by
  have hb : (beforeEvents cfg).filter Event.isOutput = [] := by
    unfold beforeEvents pathEvent
    cases cfg.IP <;> cases cfg.Method <;> cases cfg.Path <;> cases cfg.Query <;>
      simp [Event.isOutput]
  have ha : (afterEvents cfg).filter Event.isOutput = [] := by
    unfold afterEvents pathEvent
    have h1 := filter_isOutput_map String Event.ValuesGet cfg.MessageContextKeys (fun _ => rfl)
    have h2 := filter_isOutput_map String Event.GetHeader cfg.MessageHeaderKeys (fun _ => rfl)
    cases cfg.PathAfterHandler <;> cases cfg.Status <;> cases cfg.Query <;>
      simp [Event.isOutput, h1, h2]
  have ht : (traceEvents cfg (h.Next ctx)).filter Event.isOutput = [] := by
    unfold traceEvents
    cases cfg.TraceRoute <;> cases (h.Next ctx).CurrentRoute <;> simp [Event.isOutput]
  have hk : (skipEvents cfg).filter Event.isOutput = [] := by
    unfold skipEvents
    cases cfg.skip.isSome <;> simp [Event.isOutput]
  have ho := outputEvent_isOutput h cfg ctx (h.Next ctx) (h.clock reads) (h.clock (reads + 1))
  have hn : ∀ t, Event.isOutput (Event.Now t) = false := fun _ => rfl
  have hx : Event.isOutput Event.Next = false := rfl
  have hg : Event.isOutput Event.GetStatusCode = false := rfl
  unfold loggedEvents emissionEvents
  cases plainPath cfg <;>
    simp [List.filter_append, List.filter_cons, hb, ha, ht, hk, ho, hn, hx, hg]

theorem output_of_run (h : Host) (cfg : Config) (ctx : Context) (hs : skipped cfg ctx = false) :
    (run h cfg ctx).filter Event.isOutput =
      [outputEvent h cfg ctx (h.Next ctx) (h.clock 0) (h.clock 1)] := by
  rw [run_logged h cfg ctx hs]
  exact filter_isOutput_logged h cfg ctx 0

theorem plainLine_eq (latency : Duration) (status ip method path : String)
    (message headerMessage : Option Value) :
    plainLine latency status ip method path message headerMessage =
      status ++ " "
        ++ String.mk (List.replicate (4 - (Duration.String latency).length) ' ')
        ++ Duration.String latency ++ " " ++ ip ++ " " ++ method ++ " " ++ path
        ++ aggregateSuffix message ++ aggregateSuffix headerMessage := by
  apply String.ext
  cases message <;> cases headerMessage <;>
    simp [plainLine, padLeft, aggregateSuffix, fmtV, String.data_append]

theorem contextAggregate_absent (ctx' : Context) (keys : List String)
    (habs : ∀ key ∈ keys, ctx'.Values key = none) : contextAggregate ctx' keys none = none := by
  induction keys with
  | nil => rfl
  | cons key keys ih =>
    have hk : ctx'.Values key = none := habs key (List.mem_cons_self key keys)
    have ht : ∀ k ∈ keys, ctx'.Values k = none := fun k hk => habs k (List.mem_cons_of_mem key hk)
    simp [contextAggregate, hk, ih ht]

theorem headerAggregate_isSome (ctx' : Context) (keys : List String) (v : Value) :
    (headerAggregate ctx' keys (some v)).isSome = true := by
  induction keys generalizing v with
  | nil => rfl
  | cons key keys ih => simp [headerAggregate, ih]

theorem headerAggregate_ne_none (ctx' : Context) (keys : List String) (hne : keys ≠ []) :
    headerAggregate ctx' keys none ≠ none := by
  cases keys with
  | nil => exact absurd rfl hne
  | cons key keys =>
    intro hnone
    have hsome := headerAggregate_isSome ctx' keys (Value.str (ctx'.Header key))
    simp [headerAggregate] at hnone
    rw [hnone] at hsome
    exact absurd hsome (by decide)

theorem titles_cells (message headerMessage : Option Value) :
    elementsFromLine (columnizeTitles message headerMessage) =
      baseTitles ++ (if message.isSome then ["Message"] else [])
        ++ (if headerMessage.isSome then ["HeaderMessage"] else []) := by
  cases message <;> cases headerMessage <;> simp [columnizeTitles] <;> decide


/-! ## Facts about the library routines -/

theorem digitChar_isDurationChar (v : Nat) : isDurationChar (digitChar (v % 10)) = true := by
  have hlt : v % 10 < 10 := Nat.mod_lt v (by decide)
  generalize v % 10 = d at hlt
  interval_cases d <;> decide

theorem fmtIntLoop_chars (fuel v : Nat) (buf : List Char)
    (hb : ∀ c ∈ buf, isDurationChar c = true) :
    ∀ c ∈ fmtIntLoop fuel v buf, isDurationChar c = true := by
  induction fuel generalizing v buf with
  | zero => simpa [fmtIntLoop] using hb
  | succ fuel ih =>
    unfold fmtIntLoop
    split
    · apply ih
      intro c hc
      rcases List.mem_cons.mp hc with rfl | hc
      · exact digitChar_isDurationChar v
      · exact hb c hc
    · exact hb

theorem fmtInt_chars (buf : List Char) (v : Nat) (hb : ∀ c ∈ buf, isDurationChar c = true) :
    ∀ c ∈ fmtInt buf v, isDurationChar c = true := by
  unfold fmtInt
  split
  · intro c hc
    rcases List.mem_cons.mp hc with rfl | hc
    · decide
    · exact hb c hc
  · exact fmtIntLoop_chars v v buf hb

theorem fmtFracLoop_chars (prec v : Nat) (print : Bool) (buf : List Char)
    (hb : ∀ c ∈ buf, isDurationChar c = true) :
    ∀ c ∈ (fmtFracLoop prec v print buf).1, isDurationChar c = true := by
  induction prec generalizing v print buf with
  | zero => simpa [fmtFracLoop] using hb
  | succ prec ih =>
    unfold fmtFracLoop
    apply ih
    intro c hc
    split at hc
    · rcases List.mem_cons.mp hc with rfl | hc
      · exact digitChar_isDurationChar v
      · exact hb c hc
    · exact hb c hc

theorem fmtFrac_chars (buf : List Char) (v prec : Nat)
    (hb : ∀ c ∈ buf, isDurationChar c = true) :
    ∀ c ∈ (fmtFrac buf v prec).1, isDurationChar c = true := by
  unfold fmtFrac
  have hl := fmtFracLoop_chars prec v false buf hb
  intro c hc
  simp only at hc
  split at hc
  · rcases List.mem_cons.mp hc with rfl | hc
    · decide
    · exact hl c hc
  · exact hl c hc

theorem formatUnsigned_chars (u : Nat) : ∀ c ∈ formatUnsigned u, isDurationChar c = true := by
  have hns : ∀ c ∈ ['n', 's'], isDurationChar c = true := by decide
  have hus : ∀ c ∈ ['µ', 's'], isDurationChar c = true := by decide
  have hms : ∀ c ∈ ['m', 's'], isDurationChar c = true := by decide
  have hs : ∀ c ∈ ['s'], isDurationChar c = true := by decide
  have hcons : ∀ (a : Char) (l : List Char), isDurationChar a = true →
      (∀ c ∈ l, isDurationChar c = true) → ∀ c ∈ a :: l, isDurationChar c = true := by
    intro a l ha hl c hc
    rcases List.mem_cons.mp hc with rfl | hc
    · exact ha
    · exact hl c hc
  unfold formatUnsigned
  split
  · split
    · decide
    · split
      · exact fmtInt_chars _ _ (fmtFrac_chars _ _ _ hns)
      · split
        · exact fmtInt_chars _ _ (fmtFrac_chars _ _ _ hus)
        · exact fmtInt_chars _ _ (fmtFrac_chars _ _ _ hms)
  · have h1 := fmtInt_chars _ ((fmtFrac ['s'] u 9).2 % 60) (fmtFrac_chars ['s'] u 9 hs)
    simp only
    split
    · have h2 := fmtInt_chars _ ((fmtFrac ['s'] u 9).2 / 60 % 60) (hcons 'm' _ (by decide) h1)
      split
      · exact fmtInt_chars _ _ (hcons 'h' _ (by decide) h2)
      · exact h2
    · exact h1

theorem Duration_String_chars (d : Duration) :
    ∀ c ∈ (Duration.String d).data, isDurationChar c = true := by
  unfold Duration.String
  have hu := formatUnsigned_chars d.natAbs
  simp only
  split
  · intro c hc
    rcases List.mem_cons.mp hc with rfl | hc
    · decide
    · exact hu c hc
  · exact hu


theorem isDurationChar_ne_pipe (c : Char) (hc : isDurationChar c = true) : c ≠ '|' := by
  intro h
  subst h
  revert hc
  decide

theorem isDurationChar_ne_newline (c : Char) (hc : isDurationChar c = true) : c ≠ '\n' := by
  intro h
  subst h
  revert hc
  decide

theorem isDurationChar_not_space (c : Char) (hc : isDurationChar c = true) :
    isSpace c = false := by
  unfold isDurationChar at hc
  simp only [Bool.or_eq_true, Bool.and_eq_true, decide_eq_true_eq] at hc
  rcases hc with ((((((h | h) | h) | h) | h) | h) | h) | h
  · unfold isSpace
    simp only [Bool.or_eq_false_iff, Bool.and_eq_false_imp, decide_eq_true_eq,
      decide_eq_false_iff_not]
    omega
  all_goals (subst h; decide)

theorem trimRunes_cons_space (c : Char) (l : List Char) (hc : isSpace c = true) :
    trimRunes (c :: l) = trimRunes l := by
  simp [trimRunes, List.dropWhile_cons, hc]

theorem trimRunes_append_space (l : List Char) (c : Char) (hc : isSpace c = true) :
    trimRunes (l ++ [c]) = trimRunes l := by
  induction l with
  | nil => simp [trimRunes, List.dropWhile_cons, hc]
  | cons x l ih =>
    cases hx : isSpace x
    · simp [trimRunes, List.dropWhile_cons, hx, hc]
    · rw [List.cons_append, trimRunes_cons_space x _ hx, trimRunes_cons_space x _ hx, ih]

theorem trimRunes_replicate_append (k : Nat) (l : List Char) :
    trimRunes (List.replicate k ' ' ++ l) = trimRunes l := by
  induction k with
  | zero => simp
  | succ k ih =>
    rw [List.replicate_succ, List.cons_append, trimRunes_cons_space _ _ (by decide), ih]

theorem dropWhile_of_no_space (l : List Char) (hl : ∀ c ∈ l, isSpace c = false) :
    l.dropWhile isSpace = l := by
  cases l with
  | nil => rfl
  | cons x l => simp [List.dropWhile_cons, hl x (List.mem_cons_self x l)]

theorem trimRunes_of_no_space (l : List Char) (hl : ∀ c ∈ l, isSpace c = false) :
    trimRunes l = l := by
  unfold trimRunes
  rw [dropWhile_of_no_space l hl, dropWhile_of_no_space l.reverse, List.reverse_reverse]
  intro c hc
  exact hl c (List.mem_reverse.mp hc)

theorem trimRunes_sublist (l : List Char) : (trimRunes l).Sublist l := by
  unfold trimRunes
  have h1 : ((l.dropWhile isSpace).reverse.dropWhile isSpace).Sublist (l.dropWhile isSpace).reverse :=
    List.dropWhile_sublist _
  have h2 := List.Sublist.reverse h1
  rw [List.reverse_reverse] at h2
  exact h2.trans (List.dropWhile_sublist _)


theorem splitPipe_ne_nil (l : List Char) : splitPipe l ≠ [] := by
  cases l with
  | nil => simp [splitPipe]
  | cons c cs =>
    unfold splitPipe
    split
    · simp
    · split <;> simp

theorem splitPipe_of_no_pipe (l : List Char) (hl : '|' ∉ l) : splitPipe l = [l] := by
  induction l with
  | nil => rfl
  | cons c cs ih =>
    have hc : c ≠ '|' := fun h => hl (h ▸ List.mem_cons_self c cs)
    have hcs : '|' ∉ cs := fun h => hl (List.mem_cons_of_mem c h)
    simp [splitPipe, hc, ih hcs]

theorem splitPipe_append_pipe (a rest : List Char) (ha : '|' ∉ a) :
    splitPipe (a ++ '|' :: rest) = a :: splitPipe rest := by
  induction a with
  | nil => simp [splitPipe]
  | cons c cs ih =>
    have hc : c ≠ '|' := fun h => ha (h ▸ List.mem_cons_self c cs)
    have hcs : '|' ∉ cs := fun h => ha (List.mem_cons_of_mem c h)
    simp [splitPipe, hc, ih hcs]

theorem map_trimRunes_splitPipe_cons_space (l : List Char) :
    (splitPipe (' ' :: l)).map trimRunes = (splitPipe l).map trimRunes := by
  have hne := splitPipe_ne_nil l
  cases hsp : splitPipe l with
  | nil => exact absurd hsp hne
  | cons piece pieces =>
    have hs : splitPipe (' ' :: l) = (' ' :: piece) :: pieces := by
      simp [splitPipe, hsp]
    rw [hs]
    simp [trimRunes_cons_space ' ' piece (by decide)]

theorem map_trimRunes_splitPipe_joinCells (cells : List (List Char)) (hne : cells ≠ [])
    (hp : ∀ c ∈ cells, '|' ∉ c) :
    (splitPipe (joinCells cells)).map trimRunes = cells.map trimRunes := by
  induction cells with
  | nil => exact absurd rfl hne
  | cons c cs ih =>
    have hc : '|' ∉ c := hp c (List.mem_cons_self c cs)
    cases cs with
    | nil => simp [joinCells, splitPipe_of_no_pipe c hc]
    | cons c' cs =>
      have hcs : ∀ x ∈ c' :: cs, '|' ∉ x := fun x hx => hp x (List.mem_cons_of_mem c hx)
      have hc1 : '|' ∉ c ++ [' '] := by
        intro hmem
        rcases List.mem_append.mp hmem with h | h
        · exact hc h
        · simp at h
      have hj : joinCells (c :: c' :: cs) = (c ++ [' ']) ++ '|' :: (' ' :: joinCells (c' :: cs)) := by
        simp [joinCells]
      rw [hj, splitPipe_append_pipe _ _ hc1, List.map_cons, map_trimRunes_splitPipe_cons_space,
        ih (by simp) hcs, trimRunes_append_space c ' ' (by decide)]
      simp

theorem columnizeLine_data (nowFormatted : String) (latency : Duration)
    (status ip method path : String) (message headerMessage : Option Value) :
    (columnizeLine nowFormatted latency status ip method path message headerMessage).data =
      joinCells (([nowFormatted, status, padLeft 4 (Duration.String latency), ip, method, path]
        ++ optionalCell message ++ optionalCell headerMessage).map String.data) := by
  cases message <;> cases headerMessage <;>
    simp [columnizeLine, optionalCell, joinCells, fmtV, String.data_append]

theorem elementsFromLine_eq (line : String) :
    elementsFromLine line = ((splitPipe line.data).map trimRunes).map String.mk := by
  simp [elementsFromLine, Split, TrimSpace, List.map_map, Function.comp_def]

theorem padLeft_duration_no_pipe (latency : Duration) :
    '|' ∉ (padLeft 4 (Duration.String latency)).data := by
  intro hmem
  simp only [padLeft, List.mem_append, List.mem_replicate] at hmem
  rcases hmem with ⟨_, h⟩ | h
  · exact absurd h (by decide)
  · exact isDurationChar_ne_pipe _ (Duration_String_chars latency _ h) rfl

theorem trim_padLeft_duration (latency : Duration) :
    trimRunes (padLeft 4 (Duration.String latency)).data = (Duration.String latency).data := by
  simp only [padLeft]
  rw [trimRunes_replicate_append]
  exact trimRunes_of_no_space _
    (fun c hc => isDurationChar_not_space c (Duration_String_chars latency c hc))

theorem elementsFromLine_columnizeLine (nowFormatted : String) (latency : Duration)
    (status ip method path : String) (message headerMessage : Option Value)
    (hp : ∀ s ∈ textFields nowFormatted status ip method path message headerMessage,
      '|' ∉ s.data) :
    elementsFromLine
        (columnizeLine nowFormatted latency status ip method path message headerMessage)
      = valueCells nowFormatted latency status ip method path message headerMessage := by
  rw [elementsFromLine_eq, columnizeLine_data, map_trimRunes_splitPipe_joinCells]
  · cases message <;> cases headerMessage <;>
      simp [valueCells, optionalCell, TrimSpace, trim_padLeft_duration]
  · simp
  · intro c hc
    simp only [List.map_append, List.mem_append, List.mem_map, List.mem_cons,
      List.mem_singleton, List.not_mem_nil, or_false] at hc
    have hl := padLeft_duration_no_pipe latency
    have hf : ∀ s, s ∈ textFields nowFormatted status ip method path message headerMessage →
        s.data = c → '|' ∉ c := fun s hs he => he ▸ hp s hs
    unfold textFields at hf
    simp only [List.mem_append, List.mem_cons, List.mem_singleton, List.not_mem_nil,
      or_false] at hf
    rcases hc with (⟨s, hs, he⟩ | ⟨s, hs, he⟩) | ⟨s, hs, he⟩
    · rcases hs with rfl | rfl | rfl | rfl | rfl | rfl
      · exact hf _ (Or.inl (Or.inl (Or.inl rfl))) he
      · exact hf _ (Or.inl (Or.inl (Or.inr (Or.inl rfl)))) he
      · exact he ▸ hl
      · exact hf _ (Or.inl (Or.inl (Or.inr (Or.inr (Or.inl rfl))))) he
      · exact hf _ (Or.inl (Or.inl (Or.inr (Or.inr (Or.inr (Or.inl rfl)))))) he
      · exact hf _ (Or.inl (Or.inl (Or.inr (Or.inr (Or.inr (Or.inr rfl)))))) he
    · exact hf s (Or.inl (Or.inr hs)) he
    · exact hf s (Or.inr hs) he

theorem mergeWidths_nil (ls : List Nat) : mergeWidths [] ls = ls := by
  induction ls with
  | nil => rfl
  | cons l ls ih => simp [mergeWidths, ih]

theorem mergeWidths_eq_zipWith (ws ls : List Nat) (hl : ws.length = ls.length) :
    mergeWidths ws ls = List.zipWith max ws ls := by
  induction ws generalizing ls with
  | nil =>
    cases ls with
    | nil => rfl
    | cons l ls => simp at hl
  | cons w ws ih =>
    cases ls with
    | nil => simp at hl
    | cons l ls =>
      have hl' : ws.length = ls.length := by simpa using hl
      have hmax : (if w < l then l else w) = max w l := by
        by_cases h : w < l
        · simp [h, Nat.max_eq_right (Nat.le_of_lt h)]
        · simp [h, Nat.max_eq_left (Nat.le_of_not_lt h)]
      simp [mergeWidths, ih ls hl', hmax]

theorem widthsFromLines_pair (titles line : String)
    (hl : (elementsFromLine titles).length = (elementsFromLine line).length) :
    widthsFromLines [titles, line]
      = columnWidths (elementsFromLine titles) (elementsFromLine line) := by
  simp only [widthsFromLines, List.foldl_cons, List.foldl_nil, mergeWidths_nil]
  rw [mergeWidths_eq_zipWith _ _ (by simpa using hl)]
  simp [columnWidths, List.zipWith_map]

theorem digitChar_toNat (d : Nat) (hd : d < 10) : (digitChar d).toNat - 48 = d := by
  interval_cases d <;> rfl

theorem parsenumLoop_fmtIntLoop (fuel v : Nat) (buf : List Char) (hf : v ≤ fuel)
    (hv : v / 10 ≤ 1000000) :
    parsenumLoop (fmtIntLoop fuel v buf) 0 = parsenumLoop buf v := by
  induction fuel generalizing v buf with
  | zero =>
    have hz : v = 0 := Nat.le_zero.mp hf
    simp [fmtIntLoop, hz]
  | succ fuel ih =>
    unfold fmtIntLoop
    by_cases hpos : v > 0
    · have hdiv : v / 10 ≤ fuel := by omega
      have hsmall : v / 10 / 10 ≤ 1000000 := by omega
      have hnot : tooLarge (v / 10) = false := by
        unfold tooLarge
        simp only [decide_eq_false_iff_not]
        omega
      have hdigit := digitChar_toNat (v % 10) (Nat.mod_lt v (by decide))
      have hval : v / 10 * 10 + v % 10 = v := by omega
      simp only [hpos, if_true]
      rw [ih (v / 10) (digitChar (v % 10) :: buf) hdiv hsmall]
      simp only [parsenumLoop, hnot, hdigit, hval]
      simp
    · have hz : v = 0 := by omega
      simp [hz]

theorem parsenum_fmtInt (w : Nat) (hw : w < 10000010) : parsenum (fmtInt [] w) = some w := by
  unfold parsenum fmtInt
  by_cases hz : w = 0
  · subst hz
    rfl
  · simp only [hz, if_false]
    rw [parsenumLoop_fmtIntLoop w w [] (Nat.le_refl w) (by omega)]
    rfl

theorem Fprintf_nil (verbs : List Verb) : Fprintf verbs [] = "" := by
  cases verbs with
  | nil => rfl
  | cons v vs => cases v <;> rfl

theorem Fprintf_stringFormatFrom (elems : List String) (widths : List Nat) (i : Nat)
    (hne : elems ≠ []) (hl : elems.length ≤ widths.length)
    (hw : ∀ w ∈ widths.take (elems.length - 1), w < 10000010) :
    Fprintf (stringFormatFrom (i + elems.length) i widths) elems
      = alignedRow widths elems ++ "\n" := by
  induction elems generalizing widths i with
  | nil => exact absurd rfl hne
  | cons e es ih =>
    cases widths with
    | nil => simp at hl
    | cons w ws =>
      have hl' : es.length ≤ ws.length := by simpa using hl
      cases es with
      | nil =>
        simp [stringFormatFrom, Fprintf, Fprintf_nil, alignedRow]
      | cons e' es =>
        have hi : ¬ (i = i + (e :: e' :: es).length - 1) := by
          simp only [List.length_cons]
          omega
        have hlt : i < i + (e :: e' :: es).length := by
          simp only [List.length_cons]
          omega
        have hidx : i + (e :: e' :: es).length = (i + 1) + (e' :: es).length := by
          simp only [List.length_cons]
          omega
        have hwid : parsenum (fmtInt [] w) = some w := by
          apply parsenum_fmtInt
          apply hw
          simp
        have hrest : ∀ x ∈ ws.take ((e' :: es).length - 1), x < 10000010 := by
          intro x hx
          apply hw
          simp only [List.length_cons, Nat.add_sub_cancel, List.take_succ_cons] at hx ⊢
          exact List.mem_cons_of_mem w hx
        have ih' := ih ws (i + 1) (by simp) hl' hrest
        rw [← hidx] at ih'
        simp only [stringFormatFrom, hlt, hi, if_true, if_false, Fprintf, hwid, alignedRow, ih']
        simp [String.append_assoc]

theorem Fprintf_stringFormat (elems : List String) (widths : List Nat)
    (hne : elems ≠ []) (hl : elems.length ≤ widths.length)
    (hw : ∀ w ∈ widths.take (elems.length - 1), w < 10000010) :
    Fprintf (stringFormat widths elems.length) elems = alignedRow widths elems ++ "\n" := by
  have h := Fprintf_stringFormatFrom elems widths 0 hne hl hw
  simpa [stringFormat] using h

theorem dropTrailingNewline_append (s : String) : dropTrailingNewline (s ++ "\n") = s := by
  unfold dropTrailingNewline
  have hd : (s ++ "\n").data.reverse = '\n' :: s.data.reverse := by
    simp [String.data_append]
  rw [hd]
  simp

theorem mergeWidths_length (ws ls : List Nat) :
    (mergeWidths ws ls).length = max ws.length ls.length := by
  induction ws generalizing ls with
  | nil => simp [mergeWidths_nil]
  | cons w ws ih =>
    cases ls with
    | nil => simp [mergeWidths]
    | cons l ls =>
      simp only [mergeWidths, List.length_cons, ih ls]
      omega

theorem widthsFromLines_length (titles line : String) :
    (widthsFromLines [titles, line]).length
      = max (elementsFromLine titles).length (elementsFromLine line).length := by
  simp [widthsFromLines, mergeWidths_nil, mergeWidths_length]

theorem mem_dropLast_of_mem_take (ws : List Nat) (n : Nat) (hn : n ≤ ws.length) (x : Nat)
    (hx : x ∈ ws.take (n - 1)) : x ∈ ws.dropLast := by
  rw [List.dropLast_eq_take]
  have hmin : min (n - 1) (ws.length - 1) = n - 1 := by omega
  have ht : ws.take (n - 1) = (ws.take (ws.length - 1)).take (n - 1) := by
    rw [List.take_take, hmin]
  rw [ht] at hx
  exact List.take_subset _ _ hx

theorem elementsFromLine_ne_nil (line : String) : elementsFromLine line ≠ [] := by
  rw [elementsFromLine_eq]
  have h := splitPipe_ne_nil line.data
  simpa using h

theorem Format_pair (titles line : String)
    (hw : ∀ w ∈ (widthsFromLines [titles, line]).dropLast, w < 10000010) :
    Format [titles, line] =
      alignedRow (widthsFromLines [titles, line]) (elementsFromLine titles) ++ "\n"
        ++ alignedRow (widthsFromLines [titles, line]) (elementsFromLine line) := by
  have hlen := widthsFromLines_length titles line
  have hT : (elementsFromLine titles).length ≤ (widthsFromLines [titles, line]).length := by
    omega
  have hV : (elementsFromLine line).length ≤ (widthsFromLines [titles, line]).length := by
    omega
  have hwT : ∀ w ∈ (widthsFromLines [titles, line]).take ((elementsFromLine titles).length - 1),
      w < 10000010 := fun w hmem => hw w (mem_dropLast_of_mem_take _ _ hT w hmem)
  have hwV : ∀ w ∈ (widthsFromLines [titles, line]).take ((elementsFromLine line).length - 1),
      w < 10000010 := fun w hmem => hw w (mem_dropLast_of_mem_take _ _ hV w hmem)
  have h1 := Fprintf_stringFormat _ _ (elementsFromLine_ne_nil titles) hT hwT
  have h2 := Fprintf_stringFormat _ _ (elementsFromLine_ne_nil line) hV hwV
  unfold Format
  simp only [List.foldl_cons, List.foldl_nil]
  rw [h1, h2]
  have he : ∀ a b : String, "" ++ (a ++ "\n") ++ (b ++ "\n") = (a ++ "\n" ++ b) ++ "\n" := by
    intro a b
    apply String.ext
    simp [String.data_append]
  rw [he, dropTrailingNewline_append]

theorem padRight_length (w : Nat) (s : String) :
    (padRight w s).length = max w s.length := by
  simp only [padRight, String.length, List.length_append, List.length_replicate]
  omega

theorem padRight_no_newline (w : Nat) (s : String) (hs : '\n' ∉ s.data) :
    '\n' ∉ (padRight w s).data := by
  intro hmem
  simp only [padRight, List.mem_append, List.mem_replicate] at hmem
  rcases hmem with h | ⟨_, h⟩
  · exact hs h
  · exact absurd h (by decide)

theorem alignedRow_no_newline (widths : List Nat) (elems : List String)
    (he : ∀ e ∈ elems, '\n' ∉ e.data) : '\n' ∉ (alignedRow widths elems).data := by
  induction elems generalizing widths with
  | nil => cases widths <;> simp [alignedRow]
  | cons e es ih =>
    have h0 : '\n' ∉ e.data := he e (List.mem_cons_self e es)
    have ht : ∀ x ∈ es, '\n' ∉ x.data := fun x hx => he x (List.mem_cons_of_mem e hx)
    cases es with
    | nil => cases widths <;> simpa [alignedRow] using h0
    | cons e' es =>
      cases widths with
      | nil => simp [alignedRow]
      | cons w ws =>
        have hrest := ih ws ht
        have hpad := padRight_no_newline w e h0
        intro hmem
        simp only [alignedRow, String.data_append, List.mem_append] at hmem
        rcases hmem with (h | h) | h
        · exact hpad h
        · revert h
          simp [Glue]
        · exact hrest h

theorem TrimSpace_no_newline (s : String) (hs : '\n' ∉ s.data) : '\n' ∉ (TrimSpace s).data :=
  fun h => hs ((trimRunes_sublist s.data).subset h)

theorem titleCells_no_newline (message headerMessage : Option Value) :
    ∀ e ∈ titleCells message headerMessage, '\n' ∉ e.data := by
  cases message <;> cases headerMessage <;> simp [titleCells, baseTitles]

theorem valueCells_no_newline (nowFormatted : String) (latency : Duration)
    (status ip method path : String) (message headerMessage : Option Value)
    (hn : ∀ s ∈ textFields nowFormatted status ip method path message headerMessage,
      '\n' ∉ s.data) :
    ∀ e ∈ valueCells nowFormatted latency status ip method path message headerMessage,
      '\n' ∉ e.data := by
  have hd : '\n' ∉ (Duration.String latency).data :=
    fun h => isDurationChar_ne_newline _ (Duration_String_chars latency _ h) rfl
  have hf : ∀ s ∈ textFields nowFormatted status ip method path message headerMessage,
      '\n' ∉ (TrimSpace s).data := fun s hs => TrimSpace_no_newline s (hn s hs)
  unfold textFields at hf
  simp only [List.mem_append, List.mem_cons, List.mem_singleton, List.not_mem_nil,
    or_false] at hf
  intro e he
  simp only [valueCells, List.mem_append, List.mem_cons, List.mem_singleton, List.not_mem_nil,
    or_false, List.mem_map] at he
  rcases he with (h | ⟨s, hs, rfl⟩) | ⟨s, hs, rfl⟩
  · rcases h with rfl | rfl | rfl | rfl | rfl | rfl
    · exact hf _ (Or.inl (Or.inl (Or.inl rfl)))
    · exact hf _ (Or.inl (Or.inl (Or.inr (Or.inl rfl))))
    · exact hd
    · exact hf _ (Or.inl (Or.inl (Or.inr (Or.inr (Or.inl rfl)))))
    · exact hf _ (Or.inl (Or.inl (Or.inr (Or.inr (Or.inr (Or.inl rfl))))))
    · exact hf _ (Or.inl (Or.inl (Or.inr (Or.inr (Or.inr (Or.inr rfl))))))
  · exact hf s (Or.inl (Or.inr hs))
  · exact hf s (Or.inr hs)

theorem titleCells_length (nowFormatted : String) (latency : Duration)
    (status ip method path : String) (message headerMessage : Option Value) :
    (titleCells message headerMessage).length
      = (valueCells nowFormatted latency status ip method path message headerMessage).length := by
  cases message <;> cases headerMessage <;> simp [titleCells, valueCells, baseTitles, optionalCell]

theorem titles_cells_eq (message headerMessage : Option Value) :
    elementsFromLine (columnizeTitles message headerMessage) = titleCells message headerMessage :=
  titles_cells message headerMessage

theorem Columnize_eq_rows (nowFormatted : String) (latency : Duration)
    (status ip method path : String) (message headerMessage : Option Value)
    (hw : ∀ w ∈ (widthsFromLines [columnizeTitles message headerMessage,
        columnizeLine nowFormatted latency status ip method path message
          headerMessage]).dropLast, w < 10000010) :
    Columnize nowFormatted latency status ip method path message headerMessage =
      alignedRow
          (widthsFromLines [columnizeTitles message headerMessage,
            columnizeLine nowFormatted latency status ip method path message headerMessage])
          (titleCells message headerMessage) ++ "\n"
        ++ alignedRow
          (widthsFromLines [columnizeTitles message headerMessage,
            columnizeLine nowFormatted latency status ip method path message headerMessage])
          (elementsFromLine
            (columnizeLine nowFormatted latency status ip method path message headerMessage))
        ++ "\n" := by
  unfold Columnize SimpleFormat
  simp only
  rw [Format_pair _ _ hw, titles_cells_eq]

theorem widths_without_pipe (nowFormatted : String) (latency : Duration)
    (status ip method path : String) (message headerMessage : Option Value)
    (hp : ∀ s ∈ textFields nowFormatted status ip method path message headerMessage,
      '|' ∉ s.data) :
    widthsFromLines [columnizeTitles message headerMessage,
        columnizeLine nowFormatted latency status ip method path message headerMessage]
      = columnWidths (titleCells message headerMessage)
          (valueCells nowFormatted latency status ip method path message headerMessage) := by
  have hv := elementsFromLine_columnizeLine nowFormatted latency status ip method path message
    headerMessage hp
  have ht := titles_cells_eq message headerMessage
  have hlen := titleCells_length nowFormatted latency status ip method path message headerMessage
  rw [widthsFromLines_pair _ _ (by rw [ht, hv]; exact hlen), ht, hv]

theorem two_le_length_splitPipe (l : List Char) (hl : '|' ∈ l) : 2 ≤ (splitPipe l).length := by
  induction l with
  | nil => simp at hl
  | cons c cs ih =>
    by_cases hc : c = '|'
    · have hne := splitPipe_ne_nil cs
      have hpos : 0 < (splitPipe cs).length := List.length_pos.mpr hne
      simp only [splitPipe, hc, if_true, List.length_cons]
      omega
    · have hcs : '|' ∈ cs := by
        rcases List.mem_cons.mp hl with h | h
        · exact absurd h.symm hc
        · exact h
      have h2 := ih hcs
      cases hsp : splitPipe cs with
      | nil => exact absurd hsp (splitPipe_ne_nil cs)
      | cons piece pieces =>
        rw [hsp] at h2
        simpa [splitPipe, hc, hsp] using h2

theorem two_le_length_valueRow (nowFormatted : String) (latency : Duration)
    (status ip method path : String) (message headerMessage : Option Value) :
    2 ≤ (elementsFromLine
      (columnizeLine nowFormatted latency status ip method path message headerMessage)).length := by
  have hmem : '|' ∈
      (columnizeLine nowFormatted latency status ip method path message headerMessage).data := by
    rw [columnizeLine_data]
    simp [joinCells]
  have h := two_le_length_splitPipe _ hmem
  rw [elementsFromLine_eq]
  simpa using h

theorem alignedRow_ne_empty (widths : List Nat) (elems : List String)
    (he : 2 ≤ elems.length) (hl : elems.length ≤ widths.length) :
    alignedRow widths elems ≠ "" := by
  cases elems with
  | nil => simp at he
  | cons e es =>
    cases es with
    | nil => simp at he
    | cons e' es =>
      cases widths with
      | nil => simp at hl
      | cons w ws =>
        intro h
        have hd := congrArg String.length h
        simp only [alignedRow, Glue, String.length_append] at hd
        have h2 : "  ".length = 2 := rfl
        have h0 : "".length = 0 := rfl
        omega

/-! ## The whole run: order of the actions, sink calls -/

theorem skipped_true_iff (cfg : Config) (ctx : Context) (hs : skipped cfg ctx = true) :
    ∃ skip, cfg.skip = some skip ∧ skip ctx = true := by
  unfold skipped at hs
  cases hc : cfg.skip with
  | none => simp [hc] at hs
  | some skip =>
    rw [hc] at hs
    exact ⟨skip, rfl, hs⟩

theorem run_skipped (h : Host) (cfg : Config) (ctx : Context) (hs : skipped cfg ctx = true) :
    run h cfg ctx = [Event.skip, Event.Next] := by
  obtain ⟨skip, hc, ht⟩ := skipped_true_iff cfg ctx hs
  unfold run
  rw [ServeHTTP_run_skipped h cfg skip (World.start ctx) hc ht]
  simp [World.start]

theorem outputEvent_eq_strategyCall (h : Host) (cfg : Config) (ctx ctx' : Context)
    (t₀ t₁ : Time) :
    outputEvent h cfg ctx ctx' t₀ t₁ =
      strategyCall h cfg ctx'.StatusCode t₁ (t₁.Sub t₀) (capturedStatus cfg ctx')
        (capturedIP cfg ctx) (capturedMethod cfg ctx) (capturedPath cfg ctx ctx')
        (contextAggregate ctx' cfg.MessageContextKeys none)
        (headerAggregate ctx' cfg.MessageHeaderKeys none) := rfl

theorem isSinkOrCallback_of_isOutput (e : Event) (he : e.isOutput = true) :
    e.isSinkOrCallback = true := by
  cases e <;> simp_all [Event.isSinkOrCallback, Event.isOutput]

theorem filter_isSinkOrCallback_map (α : Type) (f : α → Event) (l : List α)
    (hf : ∀ a, (f a).isSinkOrCallback = false) :
    (l.map f).filter Event.isSinkOrCallback = [] := by
  induction l with
  | nil => rfl
  | cons a l ih => simp [List.filter, hf a, ih]

theorem filter_isSinkOrCallback_traceEvents (cfg : Config) (ctx' : Context) :
    (traceEvents cfg ctx').filter Event.isSinkOrCallback = traceCalls cfg ctx' := by
  unfold traceEvents traceCalls
  cases cfg.TraceRoute <;> cases ctx'.CurrentRoute <;>
    simp [Event.isSinkOrCallback, Event.isOutput]

theorem filter_isSinkOrCallback_logged (h : Host) (cfg : Config) (ctx : Context) (reads : Nat) :
    (skipEvents cfg ++ loggedEvents h cfg ctx reads).filter Event.isSinkOrCallback =
      outputEvent h cfg ctx (h.Next ctx) (h.clock reads) (h.clock (reads + 1))
        :: (if plainPath cfg then traceCalls cfg (h.Next ctx) else []) := by
  have hb : (beforeEvents cfg).filter Event.isSinkOrCallback = [] := by
    unfold beforeEvents pathEvent
    cases cfg.IP <;> cases cfg.Method <;> cases cfg.Path <;> cases cfg.Query <;>
      simp [Event.isSinkOrCallback, Event.isOutput]
  have ha : (afterEvents cfg).filter Event.isSinkOrCallback = [] := by
    unfold afterEvents pathEvent
    have h1 := filter_isSinkOrCallback_map String Event.ValuesGet cfg.MessageContextKeys
      (fun _ => rfl)
    have h2 := filter_isSinkOrCallback_map String Event.GetHeader cfg.MessageHeaderKeys
      (fun _ => rfl)
    cases cfg.PathAfterHandler <;> cases cfg.Status <;> cases cfg.Query <;>
      simp [Event.isSinkOrCallback, Event.isOutput, h1, h2]
  have ht := filter_isSinkOrCallback_traceEvents cfg (h.Next ctx)
  have hk : (skipEvents cfg).filter Event.isSinkOrCallback = [] := by
    unfold skipEvents
    cases cfg.skip.isSome <;> simp [Event.isSinkOrCallback, Event.isOutput]
  have ho := isSinkOrCallback_of_isOutput _
    (outputEvent_isOutput h cfg ctx (h.Next ctx) (h.clock reads) (h.clock (reads + 1)))
  have hn : ∀ t, Event.isSinkOrCallback (Event.Now t) = false := fun _ => rfl
  have hx : Event.isSinkOrCallback Event.Next = false := rfl
  have hg : Event.isSinkOrCallback Event.GetStatusCode = false := rfl
  unfold loggedEvents emissionEvents
  cases plainPath cfg <;>
    simp [List.filter_append, List.filter_cons, hb, ha, ht, hk, ho, hn, hx, hg]

theorem sinkCalls_of_run (h : Host) (cfg : Config) (ctx : Context)
    (hs : skipped cfg ctx = false) :
    (run h cfg ctx).filter Event.isSinkOrCallback =
      outputEvent h cfg ctx (h.Next ctx) (h.clock 0) (h.clock 1)
        :: (if plainPath cfg then traceCalls cfg (h.Next ctx) else []) := by
  rw [run_logged h cfg ctx hs]
  exact filter_isSinkOrCallback_logged h cfg ctx 0

theorem Columnize_ends_with_newline (nowFormatted : String) (latency : Duration)
    (status ip method path : String) (message headerMessage : Option Value) :
    (Columnize nowFormatted latency status ip method path message headerMessage).data.getLast?
      = some '\n' := by
  unfold Columnize
  simp [String.data_append]

theorem filter_isTraceStep_map (α : Type) (f : α → Event) (l : List α)
    (hf : ∀ a, (f a).isTraceStep = false) : (l.map f).filter Event.isTraceStep = [] := by
  induction l with
  | nil => rfl
  | cons a l ih => simp [List.filter, hf a, ih]

theorem outputEvent_isTraceStep (h : Host) (cfg : Config) (ctx ctx' : Context) (t₀ t₁ : Time) :
    (outputEvent h cfg ctx ctx' t₀ t₁).isTraceStep = false := by
  unfold outputEvent
  cases cfg.LogFunc <;> cases cfg.LogFuncCtx <;> cases cfg.Columns <;>
    cases h.StatusCodeNotSuccessful ctx'.StatusCode <;> simp [Event.isTraceStep]

theorem filter_isTraceStep_logged (h : Host) (cfg : Config) (ctx : Context) (reads : Nat) :
    (skipEvents cfg ++ loggedEvents h cfg ctx reads).filter Event.isTraceStep =
      if plainPath cfg then (traceEvents cfg (h.Next ctx)).filter Event.isTraceStep else [] := by
  have hb : (beforeEvents cfg).filter Event.isTraceStep = [] := by
    unfold beforeEvents pathEvent
    cases cfg.IP <;> cases cfg.Method <;> cases cfg.Path <;> cases cfg.Query <;>
      simp [Event.isTraceStep]
  have ha : (afterEvents cfg).filter Event.isTraceStep = [] := by
    unfold afterEvents pathEvent
    have h1 := filter_isTraceStep_map String Event.ValuesGet cfg.MessageContextKeys
      (fun _ => rfl)
    have h2 := filter_isTraceStep_map String Event.GetHeader cfg.MessageHeaderKeys
      (fun _ => rfl)
    cases cfg.PathAfterHandler <;> cases cfg.Status <;> cases cfg.Query <;>
      simp [Event.isTraceStep, h1, h2]
  have hk : (skipEvents cfg).filter Event.isTraceStep = [] := by
    unfold skipEvents
    cases cfg.skip.isSome <;> simp [Event.isTraceStep]
  have ho := outputEvent_isTraceStep h cfg ctx (h.Next ctx) (h.clock reads) (h.clock (reads + 1))
  have hn : ∀ t, Event.isTraceStep (Event.Now t) = false := fun _ => rfl
  have hx : Event.isTraceStep Event.Next = false := rfl
  have hg : Event.isTraceStep Event.GetStatusCode = false := rfl
  unfold loggedEvents emissionEvents
  cases plainPath cfg <;>
    simp [List.filter_append, List.filter_cons, hb, ha, hk, ho, hn, hx, hg]

theorem traceSteps_of_run (h : Host) (cfg : Config) (ctx : Context)
    (hs : skipped cfg ctx = false) :
    (run h cfg ctx).filter Event.isTraceStep =
      if plainPath cfg then (traceEvents cfg (h.Next ctx)).filter Event.isTraceStep else [] := by
  rw [run_logged h cfg ctx hs]
  exact filter_isTraceStep_logged h cfg ctx 0

theorem plainPath_iff (cfg : Config) :
    plainPath cfg = true ↔ cfg.LogFunc = false ∧ cfg.LogFuncCtx = false ∧ cfg.Columns = false := by
  unfold plainPath
  cases cfg.LogFunc <;> cases cfg.LogFuncCtx <;> cases cfg.Columns <;> simp

theorem run_split (h : Host) (cfg : Config) (ctx : Context) (hs : skipped cfg ctx = false) :
    run h cfg ctx = eventsBeforeNext h cfg ++ [Event.Next] ++ eventsAfterNext h cfg ctx := by
  rw [run_logged h cfg ctx hs]
  simp [eventsBeforeNext, eventsAfterNext, loggedEvents]

theorem outputEvent_ne_next (h : Host) (cfg : Config) (ctx ctx' : Context) (t₀ t₁ : Time) :
    Event.Next ≠ outputEvent h cfg ctx ctx' t₀ t₁ := by
  intro he
  have ho := outputEvent_isOutput h cfg ctx ctx' t₀ t₁
  rw [← he] at ho
  exact absurd ho (by decide)

theorem next_not_mem_before (h : Host) (cfg : Config) : Event.Next ∉ eventsBeforeNext h cfg := by
  unfold eventsBeforeNext skipEvents beforeEvents pathEvent
  cases cfg.skip.isSome <;> cases cfg.IP <;> cases cfg.Method <;> cases cfg.Path <;>
    cases cfg.Query <;> simp

theorem next_not_mem_traceEvents (cfg : Config) (ctx' : Context) :
    Event.Next ∉ traceEvents cfg ctx' := by
  unfold traceEvents
  cases cfg.TraceRoute <;> cases ctx'.CurrentRoute <;> simp

theorem next_not_mem_after (h : Host) (cfg : Config) (ctx : Context) :
    Event.Next ∉ eventsAfterNext h cfg ctx := by
  have ho := outputEvent_ne_next h cfg ctx (h.Next ctx) (h.clock 0) (h.clock 1)
  have ht := next_not_mem_traceEvents cfg (h.Next ctx)
  unfold eventsAfterNext afterEvents emissionEvents pathEvent
  cases plainPath cfg <;> cases cfg.PathAfterHandler <;> cases cfg.Status <;>
    cases cfg.Query <;> simp [ho, ht]

theorem outputEvent_isPathRead (h : Host) (cfg : Config) (ctx ctx' : Context) (t₀ t₁ : Time) :
    (outputEvent h cfg ctx ctx' t₀ t₁).isPathRead = false := by
  unfold outputEvent
  cases cfg.LogFunc <;> cases cfg.LogFuncCtx <;> cases cfg.Columns <;>
    cases h.StatusCodeNotSuccessful ctx'.StatusCode <;> simp [Event.isPathRead]

theorem filter_isPathRead_map (α : Type) (f : α → Event) (l : List α)
    (hf : ∀ a, (f a).isPathRead = false) : (l.map f).filter Event.isPathRead = [] := by
  induction l with
  | nil => rfl
  | cons a l ih => simp [List.filter, hf a, ih]

theorem filter_isPathRead_before (h : Host) (cfg : Config) :
    (eventsBeforeNext h cfg).filter Event.isPathRead =
      if cfg.Path then [if cfg.Query then Event.RequestURI else Event.Path] else [] := by
  unfold eventsBeforeNext skipEvents beforeEvents pathEvent
  cases cfg.skip.isSome <;> cases cfg.IP <;> cases cfg.Method <;> cases cfg.Path <;>
    cases cfg.Query <;> simp [Event.isPathRead, List.filter_cons]

theorem filter_isPathRead_after (h : Host) (cfg : Config) (ctx : Context) :
    (eventsAfterNext h cfg ctx).filter Event.isPathRead =
      if cfg.PathAfterHandler then [if cfg.Query then Event.RequestURI else Event.Path]
      else [] := by
  have ho := outputEvent_isPathRead h cfg ctx (h.Next ctx) (h.clock 0) (h.clock 1)
  have ht : (traceEvents cfg (h.Next ctx)).filter Event.isPathRead = [] := by
    unfold traceEvents
    cases cfg.TraceRoute <;> cases (h.Next ctx).CurrentRoute <;> simp [Event.isPathRead]
  have h1 := filter_isPathRead_map String Event.ValuesGet cfg.MessageContextKeys (fun _ => rfl)
  have h2 := filter_isPathRead_map String Event.GetHeader cfg.MessageHeaderKeys (fun _ => rfl)
  have hn : ∀ t, Event.isPathRead (Event.Now t) = false := fun _ => rfl
  have hg : Event.isPathRead Event.GetStatusCode = false := rfl
  have hp : Event.isPathRead Event.Path = true := rfl
  have hu : Event.isPathRead Event.RequestURI = true := rfl
  unfold eventsAfterNext afterEvents emissionEvents pathEvent
  cases plainPath cfg <;> cases cfg.PathAfterHandler <;> cases cfg.Status <;>
    cases cfg.Query <;>
    simp [List.filter_append, List.filter_cons, ho, ht, h1, h2, hn, hg, hp, hu]

theorem filter_isSinkOrCallback_before (h : Host) (cfg : Config) :
    (eventsBeforeNext h cfg).filter Event.isSinkOrCallback = [] := by
  unfold eventsBeforeNext skipEvents beforeEvents pathEvent
  cases cfg.skip.isSome <;> cases cfg.IP <;> cases cfg.Method <;> cases cfg.Path <;>
    cases cfg.Query <;> simp [Event.isSinkOrCallback, Event.isOutput, List.filter_cons]

theorem outputEvent_isClockOrNext (h : Host) (cfg : Config) (ctx ctx' : Context)
    (t₀ t₁ : Time) : (outputEvent h cfg ctx ctx' t₀ t₁).isClockOrNext = false := by
  unfold outputEvent
  cases cfg.LogFunc <;> cases cfg.LogFuncCtx <;> cases cfg.Columns <;>
    cases h.StatusCodeNotSuccessful ctx'.StatusCode <;> simp [Event.isClockOrNext]

theorem filter_isClockOrNext_map (α : Type) (f : α → Event) (l : List α)
    (hf : ∀ a, (f a).isClockOrNext = false) : (l.map f).filter Event.isClockOrNext = [] := by
  induction l with
  | nil => rfl
  | cons a l ih => simp [List.filter, hf a, ih]

theorem clock_reads_of_run (h : Host) (cfg : Config) (ctx : Context)
    (hs : skipped cfg ctx = false) :
    (run h cfg ctx).filter Event.isClockOrNext =
      [Event.Now (h.clock 0), Event.Next, Event.Now (h.clock 1)] := by
  have hb : (eventsBeforeNext h cfg).filter Event.isClockOrNext = [Event.Now (h.clock 0)] := by
    unfold eventsBeforeNext skipEvents beforeEvents pathEvent
    cases cfg.skip.isSome <;> cases cfg.IP <;> cases cfg.Method <;> cases cfg.Path <;>
      cases cfg.Query <;> simp [Event.isClockOrNext, List.filter_cons]
  have ho := outputEvent_isClockOrNext h cfg ctx (h.Next ctx) (h.clock 0) (h.clock 1)
  have ht : (traceEvents cfg (h.Next ctx)).filter Event.isClockOrNext = [] := by
    unfold traceEvents
    cases cfg.TraceRoute <;> cases (h.Next ctx).CurrentRoute <;> simp [Event.isClockOrNext]
  have h1 := filter_isClockOrNext_map String Event.ValuesGet cfg.MessageContextKeys
    (fun _ => rfl)
  have h2 := filter_isClockOrNext_map String Event.GetHeader cfg.MessageHeaderKeys
    (fun _ => rfl)
  have ha : (eventsAfterNext h cfg ctx).filter Event.isClockOrNext = [Event.Now (h.clock 1)] := by
    have hn : ∀ t, Event.isClockOrNext (Event.Now t) = true := fun _ => rfl
    have hg : Event.isClockOrNext Event.GetStatusCode = false := rfl
    have hp : Event.isClockOrNext Event.Path = false := rfl
    have hu : Event.isClockOrNext Event.RequestURI = false := rfl
    unfold eventsAfterNext afterEvents emissionEvents pathEvent
    cases plainPath cfg <;> cases cfg.PathAfterHandler <;> cases cfg.Status <;>
      cases cfg.Query <;>
      simp [List.filter_append, List.filter_cons, ho, ht, h1, h2, hn, hg, hp, hu]
  have hx : Event.isClockOrNext Event.Next = true := rfl
  rw [run_split h cfg ctx hs]
  simp [List.filter_append, List.filter_cons, hb, ha, hx]

theorem maxDuration_eq : maxDuration = 9223372036854775807 := by
  unfold maxDuration
  norm_num

theorem minDuration_eq : minDuration = -9223372036854775808 := by
  unfold minDuration
  norm_num

theorem Sub_nonneg (t u : Time) (hm : u.mono ≤ t.mono) : (0 : Int) ≤ t.Sub u := by
  unfold Time.Sub
  rw [maxDuration_eq, minDuration_eq]
  simp only
  split
  · norm_num
  · split
    · omega
    · show (0 : Int) ≤ t.mono - u.mono
      omega

theorem Sub_eq_diff (t u : Time) (hm : u.mono ≤ t.mono) (hr : t.mono - u.mono ≤ maxDuration) :
    t.Sub u = t.mono - u.mono := by
  unfold Time.Sub
  rw [maxDuration_eq] at hr
  rw [maxDuration_eq, minDuration_eq]
  simp only
  split
  · omega
  · split
    · omega
    · rfl

theorem decimalValue_append_singleton (ds : List Char) (c : Char) :
    decimalValue (ds ++ [c]) = 10 * decimalValue ds + (c.toNat - 48) := by
  simp [decimalValue, List.foldl_append]

theorem fmtIntLoop_digits (fuel v : Nat) (buf : List Char) (hf : v ≤ fuel) :
    ∃ ds, fmtIntLoop fuel v buf = ds ++ buf ∧ decimalValue ds = v := by
  induction fuel generalizing v buf with
  | zero =>
    have hv : v = 0 := Nat.le_zero.mp hf
    exact ⟨[], by simp [fmtIntLoop], by simp [decimalValue, hv]⟩
  | succ fuel ih =>
    unfold fmtIntLoop
    by_cases hv : v > 0
    · have hdiv : v / 10 ≤ fuel := by omega
      obtain ⟨ds, hds, hval⟩ := ih (v / 10) (digitChar (v % 10) :: buf) hdiv
      refine ⟨ds ++ [digitChar (v % 10)], ?_, ?_⟩
      · simp [hv, hds]
      · rw [decimalValue_append_singleton, hval,
          digitChar_toNat (v % 10) (Nat.mod_lt v (by decide))]
        omega
    · have hz : v = 0 := by omega
      exact ⟨[], by simp [hv], by simp [decimalValue, hz]⟩

theorem decimalValue_Itoa (n : Int) (hn : 0 ≤ n) : decimalValue (Itoa n).data = n.natAbs := by
  unfold Itoa
  have hneg : ¬ n < 0 := by omega
  simp only [hneg, if_false]
  unfold fmtInt
  by_cases hz : n.natAbs = 0
  · simp [hz, decimalValue]
  · obtain ⟨ds, hds, hval⟩ := fmtIntLoop_digits n.natAbs n.natAbs [] (Nat.le_refl _)
    simp only [hz, if_false, hds, List.append_nil]
    exact hval


/-! ## A cell too wide for `fmt` -/

theorem Fprintf_wide_title :
    Fprintf (stringFormat [21, 6, 7, 10000010, 6, 4] 6)
        ["Time", "Status", "Latency", "IP", "Method", "Path"]
      = "Time                   Status  Latency  %!(NOVERB)%!(EXTRA string=IP, string=Method, string=Path)" := by
  decide

theorem Fprintf_wide_value (x : String) :
    Fprintf (stringFormat [21, 6, 7, 10000010, 6, 4] 6)
        ["2024/03/09 - 15:04:05", "200", "5ms", x, "GET", "/"]
      = "2024/03/09 - 15:04:05  200     5ms      %!(NOVERB)%!(EXTRA string=" ++ x
          ++ ", string=GET, string=/)" := by
  have hfmt : stringFormat [21, 6, 7, 10000010, 6, 4] 6
      = [Verb.padded 21, Verb.padded 6, Verb.padded 7, Verb.padded 10000010, Verb.padded 6,
          Verb.last] := by decide
  have p21 : parsenum (fmtInt [] 21) = some 21 := by decide
  have p6 : parsenum (fmtInt [] 6) = some 6 := by decide
  have p7 : parsenum (fmtInt [] 7) = some 7 := by decide
  have pw : parsenum (fmtInt [] 10000010) = none := by decide
  have hpre : "2024/03/09 - 15:04:05  200     5ms      %!(NOVERB)%!(EXTRA string="
      = padRight 21 "2024/03/09 - 15:04:05" ++ Glue ++ (padRight 6 "200" ++ Glue
          ++ (padRight 7 "5ms" ++ Glue ++ ("%!(NOVERB)" ++ "%!(EXTRA " ++ "string="))) := by
    decide
  have hpost : ", string=GET, string=/)" = ", " ++ ("string=" ++ "GET" ++ ", " ++ ("string=" ++ "/")) ++ ")" := by
    decide
  rw [hfmt, hpre, hpost]
  simp only [Fprintf, p21, p6, p7, pw, extraArgs, String.append_assoc]


theorem dropTrailingNewline_paren (s : String) : dropTrailingNewline (s ++ ")") = s ++ ")" := by
  unfold dropTrailingNewline
  have hd : (s ++ ")").data.reverse = ')' :: s.data.reverse := by
    simp [String.data_append]
  rw [hd]
  split
  · rename_i heq
    have hc : ')' = '\n' := (List.cons.inj heq).1
    exact absurd hc (by decide)
  · rfl

theorem Columnize_wide_ip (x : String) (hx1 : '|' ∉ x.data)
    (hx2 : ∀ c ∈ x.data, isSpace c = false) (hx3 : x.length = 10000010) :
    Columnize "2024/03/09 - 15:04:05" 5000000 "200" x "GET" "/" none none
      = "Time                   Status  Latency  %!(NOVERB)%!(EXTRA string=IP, string=Method, string=Path)"
        ++ ("2024/03/09 - 15:04:05  200     5ms      %!(NOVERB)%!(EXTRA string=" ++ x
          ++ ", string=GET, string=/)") ++ "\n" := by
  have hp : ∀ s ∈ textFields "2024/03/09 - 15:04:05" "200" x "GET" "/" none none,
      '|' ∉ s.data := by
    intro s hs
    simp only [textFields, optionalCell, List.append_nil, List.mem_cons, List.mem_singleton,
      List.not_mem_nil, or_false] at hs
    rcases hs with rfl | rfl | rfl | rfl | rfl
    · decide
    · decide
    · exact hx1
    · decide
    · decide
  have hx : TrimSpace x = x := by
    unfold TrimSpace
    rw [trimRunes_of_no_space x.data hx2]
  have hv : elementsFromLine
      (columnizeLine "2024/03/09 - 15:04:05" 5000000 "200" x "GET" "/" none none)
      = ["2024/03/09 - 15:04:05", "200", "5ms", x, "GET", "/"] := by
    rw [elementsFromLine_columnizeLine _ _ _ _ _ _ _ _ hp]
    have h1 : TrimSpace "2024/03/09 - 15:04:05" = "2024/03/09 - 15:04:05" := by decide
    have h2 : TrimSpace "200" = "200" := by decide
    have h3 : Duration.String 5000000 = "5ms" := by decide
    have h4 : TrimSpace "GET" = "GET" := by decide
    have h5 : TrimSpace "/" = "/" := by decide
    simp only [valueCells, optionalCell, List.map_nil, List.append_nil, h1, h2, h3, h4, h5, hx]
  have ht : elementsFromLine (columnizeTitles none none)
      = ["Time", "Status", "Latency", "IP", "Method", "Path"] := by decide
  have hws : widthsFromLines [columnizeTitles none none,
      columnizeLine "2024/03/09 - 15:04:05" 5000000 "200" x "GET" "/" none none]
      = [21, 6, 7, 10000010, 6, 4] := by
    have hl : ("2024/03/09 - 15:04:05" : String).length = 21 := by decide
    simp only [widthsFromLines, List.foldl_cons, List.foldl_nil, ht, hv, List.map_cons,
      List.map_nil, runeLen, hx3, hl]
    decide
  have hpost : ", string=GET, string=/)" = ", string=GET, string=/" ++ ")" := by decide
  unfold Columnize SimpleFormat Format
  simp only [List.foldl_cons, List.foldl_nil, hws, ht, hv, List.length_cons, List.length_nil]
  rw [Fprintf_wide_title, Fprintf_wide_value x, hpost]
  simp only [← String.append_assoc]
  rw [dropTrailingNewline_paren]
  have he : ∀ t : String, "" ++ t = t := fun t => String.ext (by simp [String.data_append])
  simp only [String.append_assoc, he]

theorem wideField_no_pipe : '|' ∉ wideField.data := by
  intro h
  have h2 := (List.mem_replicate.mp h).2
  exact absurd h2 (by decide)

theorem wideField_no_space : ∀ c ∈ wideField.data, isSpace c = false := by
  intro c h
  have h2 := (List.mem_replicate.mp h).2
  rw [h2]
  decide

theorem wideField_length : wideField.length = 10000010 :=
  List.length_replicate _ _


theorem mergeWidths_getElem? (ws ls : List Nat) (i : Nat) :
    (mergeWidths ws ls)[i]? =
      match ws[i]?, ls[i]? with
      | some w, some l => some (max w l)
      | some w, none => some w
      | none, some l => some l
      | none, none => none := by
  induction ws generalizing ls i with
  | nil =>
    rw [mergeWidths_nil]
    cases h : ls[i]? <;> simp
  | cons w ws ih =>
    cases ls with
    | nil =>
      simp only [mergeWidths]
      cases h : (w :: ws)[i]? <;> simp
    | cons l ls =>
      have hmax : (if w < l then l else w) = max w l := by
        by_cases h : w < l
        · simp [h, Nat.max_eq_right (Nat.le_of_lt h)]
        · simp [h, Nat.max_eq_left (Nat.le_of_not_lt h)]
      cases i with
      | zero => simp [mergeWidths, hmax]
      | succ i => simpa [mergeWidths] using ih ls i

theorem widthsFromLines_getElem? (titles line : String) (i : Nat) :
    (widthsFromLines [titles, line])[i]? =
      match ((elementsFromLine titles).map runeLen)[i]?,
        ((elementsFromLine line).map runeLen)[i]? with
      | some w, some l => some (max w l)
      | some w, none => some w
      | none, some l => some l
      | none, none => none := by
  have h := mergeWidths_getElem? ((elementsFromLine titles).map runeLen)
    ((elementsFromLine line).map runeLen) i
  simpa [widthsFromLines, mergeWidths_nil] using h

theorem plainLine_nil_nil (latency : Duration) (status ip method path : String) :
    plainLine latency status ip method path none none =
      status ++ " " ++ padLeft 4 (Duration.String latency) ++ " " ++ ip ++ " " ++ method
        ++ " " ++ path := by
  simp [plainLine]

/-! ## The skip path and the choice of the output strategy -/

/-- C1: when the skip predicate is set and holds of the request, the handler
evaluates it, calls `ctx.Next()` exactly once and does nothing else: the
clock is not read, no accessor is called, no callback and no sink operation
takes place. -/
theorem skip_true_only_calls_next (h : Host) (cfg : Config) (skip : Context → Bool)
    (ctx : Context) (hs : cfg.skip = some skip) (ht : skip ctx = true) :
    (ServeHTTP h cfg).run (World.start ctx) =
      ((), { ctx := h.Next ctx, clockReads := 0, trace := [Event.skip, Event.Next] }) := by
  rw [ServeHTTP_run_skipped h cfg skip (World.start ctx) hs ht]
  simp [World.start]

/-- C1 at a request for which a predicate that skips everything is set. -/
theorem skip_true_only_calls_next_witness :
    ({ allFieldsConfig with skip := some skipAll } : Config).skip = some skipAll
      ∧ skipAll healthContext = true
      ∧ (ServeHTTP (exampleHost 200 2000000) { allFieldsConfig with skip := some skipAll }).run
          (World.start healthContext) =
        ((), { ctx := (exampleHost 200 2000000).Next healthContext, clockReads := 0,
               trace := [Event.skip, Event.Next] }) :=
  ⟨rfl, rfl, skip_true_only_calls_next (exampleHost 200 2000000)
    { allFieldsConfig with skip := some skipAll } skipAll healthContext rfl rfl⟩

/-- C2: for a request that is not skipped, when both callbacks are set the
only emission is one call of `LogFunc` with (endTime, latency, status, ip,
method, path, message, headerMessage): `LogFuncCtx` is not called and
nothing is written or logged on the sink, whatever `Columns` and the status
code are. -/
theorem line_callback_used_exclusively (h : Host) (cfg : Config) (ctx : Context)
    (hs : skipped cfg ctx = false) (h1 : cfg.LogFunc = true) (_h2 : cfg.LogFuncCtx = true) :
    (run h cfg ctx).filter Event.isOutput =
      [Event.LogFunc (h.clock 1) ((h.clock 1).Sub (h.clock 0))
        (capturedStatus cfg (h.Next ctx)) (capturedIP cfg ctx) (capturedMethod cfg ctx)
        (capturedPath cfg ctx (h.Next ctx))
        (contextAggregate (h.Next ctx) cfg.MessageContextKeys none)
        (headerAggregate (h.Next ctx) cfg.MessageHeaderKeys none)] := by
  rw [output_of_run h cfg ctx hs]
  simp [outputEvent, h1]

/-- C2 at a request with both callbacks set and `Columns` enabled. -/
theorem line_callback_used_exclusively_witness :
    skipped { allFieldsConfig with LogFunc := true, LogFuncCtx := true, Columns := true }
        healthContext = false
      ∧ (run (exampleHost 404 2000000)
          { allFieldsConfig with LogFunc := true, LogFuncCtx := true, Columns := true }
          healthContext).filter Event.isOutput =
        [Event.LogFunc ⟨2024, 3, 9, 15, 4, 5, 2000000⟩ 2000000 "404" "10.0.0.5" "GET" "/health"
          none none] :=
  ⟨rfl, line_callback_used_exclusively (exampleHost 404 2000000)
    { allFieldsConfig with LogFunc := true, LogFuncCtx := true, Columns := true }
    healthContext rfl rfl rfl⟩

/-- C3: a request that is not skipped is emitted exactly once, through the
first strategy that applies: `LogFunc` if set, otherwise `LogFuncCtx` if
set, otherwise one `Printer.Write` of the `Columnize` output if `Columns` is
set, otherwise one `Warn` or `Info` call with the plain line. -/
theorem exactly_one_output_strategy (h : Host) (cfg : Config) (ctx : Context)
    (hs : skipped cfg ctx = false) :
    (run h cfg ctx).filter Event.isOutput =
      [if cfg.LogFunc then
          Event.LogFunc (h.clock 1) ((h.clock 1).Sub (h.clock 0))
            (capturedStatus cfg (h.Next ctx)) (capturedIP cfg ctx) (capturedMethod cfg ctx)
            (capturedPath cfg ctx (h.Next ctx))
            (contextAggregate (h.Next ctx) cfg.MessageContextKeys none)
            (headerAggregate (h.Next ctx) cfg.MessageHeaderKeys none)
        else if cfg.LogFuncCtx then Event.LogFuncCtx ((h.clock 1).Sub (h.clock 0))
        else if cfg.Columns then
          Event.Write (Columnize (h.clock 1).Format ((h.clock 1).Sub (h.clock 0))
            (capturedStatus cfg (h.Next ctx)) (capturedIP cfg ctx) (capturedMethod cfg ctx)
            (capturedPath cfg ctx (h.Next ctx))
            (contextAggregate (h.Next ctx) cfg.MessageContextKeys none)
            (headerAggregate (h.Next ctx) cfg.MessageHeaderKeys none))
        else if h.StatusCodeNotSuccessful (h.Next ctx).StatusCode then
          Event.Warn (plainLine ((h.clock 1).Sub (h.clock 0))
            (capturedStatus cfg (h.Next ctx)) (capturedIP cfg ctx) (capturedMethod cfg ctx)
            (capturedPath cfg ctx (h.Next ctx))
            (contextAggregate (h.Next ctx) cfg.MessageContextKeys none)
            (headerAggregate (h.Next ctx) cfg.MessageHeaderKeys none))
        else
          Event.Info (plainLine ((h.clock 1).Sub (h.clock 0))
            (capturedStatus cfg (h.Next ctx)) (capturedIP cfg ctx) (capturedMethod cfg ctx)
            (capturedPath cfg ctx (h.Next ctx))
            (contextAggregate (h.Next ctx) cfg.MessageContextKeys none)
            (headerAggregate (h.Next ctx) cfg.MessageHeaderKeys none))] := by
  rw [output_of_run h cfg ctx hs]
  rfl

/-- C3 at a request with only the context callback set, under a skip
predicate that holds of no request. -/
theorem exactly_one_output_strategy_witness :
    skipped { allFieldsConfig with LogFuncCtx := true, skip := some (fun _ => false) }
        healthContext = false
      ∧ (run (exampleHost 200 2000000)
          { allFieldsConfig with LogFuncCtx := true, skip := some (fun _ => false) }
          healthContext).filter Event.isOutput = [Event.LogFuncCtx 2000000] :=
  ⟨rfl, exactly_one_output_strategy (exampleHost 200 2000000)
    { allFieldsConfig with LogFuncCtx := true, skip := some (fun _ => false) }
    healthContext rfl⟩

/-! ## The plain path -/

/-- C4, the claim fails at its own example: with all fields enabled, for
`GET /health` from `10.0.0.5` answered with status 200 in 2ms, the emitted
line is `200  2ms 10.0.0.5 GET /health`, with two spaces in front of the
latency, and not `200 2ms 10.0.0.5 GET /health`. -/
theorem plain_line_example_has_padded_latency :
    (run (exampleHost 200 2000000) allFieldsConfig healthContext).filter Event.isOutput
        = [Event.Info "200  2ms 10.0.0.5 GET /health"]
      ∧ Event.Info "200 2ms 10.0.0.5 GET /health"
          ∉ run (exampleHost 200 2000000) allFieldsConfig healthContext := by
  decide

/-- C4 as amended: on the plain path the emitted line is
`<status> <latency> <ip> <method> <path>` with one space between adjacent
fields, the latency being right-aligned in a field of four runes (spaces
are written in front of a rendering shorter than four runes, none in front
of a longer one), followed by a space and the message when the message
aggregate is non-nil, then by a space and the header message when the
header aggregate is non-nil; nothing follows, in particular no newline. -/
theorem plain_line_format (h : Host) (cfg : Config) (ctx : Context)
    (hs : skipped cfg ctx = false) (h1 : cfg.LogFunc = false) (h2 : cfg.LogFuncCtx = false)
    (h3 : cfg.Columns = false) :
    ∃ line : String,
      ((run h cfg ctx).filter Event.isOutput = [Event.Info line]
        ∨ (run h cfg ctx).filter Event.isOutput = [Event.Warn line])
      ∧ line = capturedStatus cfg (h.Next ctx) ++ " "
          ++ String.mk (List.replicate
              (4 - (Duration.String ((h.clock 1).Sub (h.clock 0))).length) ' ')
          ++ Duration.String ((h.clock 1).Sub (h.clock 0)) ++ " "
          ++ capturedIP cfg ctx ++ " " ++ capturedMethod cfg ctx ++ " "
          ++ capturedPath cfg ctx (h.Next ctx)
          ++ aggregateSuffix (contextAggregate (h.Next ctx) cfg.MessageContextKeys none)
          ++ aggregateSuffix (headerAggregate (h.Next ctx) cfg.MessageHeaderKeys none)
      ∧ (4 ≤ (Duration.String ((h.clock 1).Sub (h.clock 0))).length →
          line = capturedStatus cfg (h.Next ctx) ++ " "
            ++ Duration.String ((h.clock 1).Sub (h.clock 0)) ++ " "
            ++ capturedIP cfg ctx ++ " " ++ capturedMethod cfg ctx ++ " "
            ++ capturedPath cfg ctx (h.Next ctx)
            ++ aggregateSuffix (contextAggregate (h.Next ctx) cfg.MessageContextKeys none)
            ++ aggregateSuffix (headerAggregate (h.Next ctx) cfg.MessageHeaderKeys none)) := by
  refine ⟨plainLine ((h.clock 1).Sub (h.clock 0)) (capturedStatus cfg (h.Next ctx))
    (capturedIP cfg ctx) (capturedMethod cfg ctx) (capturedPath cfg ctx (h.Next ctx))
    (contextAggregate (h.Next ctx) cfg.MessageContextKeys none)
    (headerAggregate (h.Next ctx) cfg.MessageHeaderKeys none), ?_, plainLine_eq _ _ _ _ _ _ _, ?_⟩
  · rw [output_of_run h cfg ctx hs]
    unfold outputEvent
    cases h.StatusCodeNotSuccessful (h.Next ctx).StatusCode <;> simp [h1, h2, h3]
  · intro hlen
    rw [plainLine_eq]
    have hz : 4 - (Duration.String ((h.clock 1).Sub (h.clock 0))).length = 0 := by omega
    rw [hz]
    apply String.ext
    simp [String.data_append]

set_option maxRecDepth 8000 in
/-- C4 as amended, at the example of the claim. -/
theorem plain_line_format_witness :
    skipped allFieldsConfig healthContext = false
      ∧ allFieldsConfig.LogFunc = false ∧ allFieldsConfig.LogFuncCtx = false
      ∧ allFieldsConfig.Columns = false
      ∧ ∃ line : String,
        ((run (exampleHost 200 2000000) allFieldsConfig healthContext).filter Event.isOutput
            = [Event.Info line]
          ∨ (run (exampleHost 200 2000000) allFieldsConfig healthContext).filter Event.isOutput
            = [Event.Warn line])
        ∧ line = "200" ++ " " ++ String.mk (List.replicate (4 - "2ms".length) ' ') ++ "2ms" ++ " "
            ++ "10.0.0.5" ++ " " ++ "GET" ++ " " ++ "/health" ++ "" ++ ""
        ∧ (4 ≤ "2ms".length → line = "200" ++ " " ++ "2ms" ++ " "
            ++ "10.0.0.5" ++ " " ++ "GET" ++ " " ++ "/health" ++ "" ++ "") :=
  ⟨rfl, rfl, rfl, rfl,
    plain_line_format (exampleHost 200 2000000) allFieldsConfig healthContext rfl rfl rfl rfl⟩

/-- C5: on the plain path the line is emitted with `Warn` when the host
predicate `StatusCodeNotSuccessful` holds of the status code read after the
handler chain and with `Info` otherwise; it is the only emission, and the
choice is the same whether the `Status` field is enabled or not. -/
theorem plain_severity_follows_status (h : Host) (cfg : Config) (ctx : Context) (b : Bool)
    (hs : skipped cfg ctx = false) (h1 : cfg.LogFunc = false) (h2 : cfg.LogFuncCtx = false)
    (h3 : cfg.Columns = false) :
    ∃ line : String,
      (run h { cfg with Status := b } ctx).filter Event.isOutput =
        [if h.StatusCodeNotSuccessful (h.Next ctx).StatusCode then Event.Warn line
          else Event.Info line]
      ∧ line = plainLine ((h.clock 1).Sub (h.clock 0))
          (if b then Itoa (h.Next ctx).StatusCode else "") (capturedIP cfg ctx)
          (capturedMethod cfg ctx) (capturedPath cfg ctx (h.Next ctx))
          (contextAggregate (h.Next ctx) cfg.MessageContextKeys none)
          (headerAggregate (h.Next ctx) cfg.MessageHeaderKeys none) := by
  refine ⟨_, ?_, rfl⟩
  have hs' : skipped { cfg with Status := b } ctx = false := hs
  rw [output_of_run h { cfg with Status := b } ctx hs']
  unfold outputEvent
  cases h.StatusCodeNotSuccessful (h.Next ctx).StatusCode <;>
    simp [h1, h2, h3, capturedStatus, capturedIP, capturedMethod, capturedPath, pathOf]

/-- C5 for a host whose predicate is `code >= 400`: status 404 selects
`Warn` and status 200 selects `Info`, here with the `Status` field
disabled. -/
theorem plain_severity_follows_status_witness :
    (skipped allFieldsConfig healthContext = false
      ∧ allFieldsConfig.LogFunc = false ∧ allFieldsConfig.LogFuncCtx = false
      ∧ allFieldsConfig.Columns = false)
      ∧ (∃ line : String,
          (run (exampleHost 404 2000000) { allFieldsConfig with Status := false }
              healthContext).filter Event.isOutput = [Event.Warn line]
          ∧ line = plainLine 2000000 "" "10.0.0.5" "GET" "/health" none none)
      ∧ (∃ line : String,
          (run (exampleHost 200 2000000) { allFieldsConfig with Status := false }
              healthContext).filter Event.isOutput = [Event.Info line]
          ∧ line = plainLine 2000000 "" "10.0.0.5" "GET" "/health" none none) :=
  ⟨⟨rfl, rfl, rfl, rfl⟩,
    plain_severity_follows_status (exampleHost 404 2000000) allFieldsConfig healthContext false
      rfl rfl rfl rfl,
    plain_severity_follows_status (exampleHost 200 2000000) allFieldsConfig healthContext false
      rfl rfl rfl rfl⟩

/-! ## Message aggregation -/

set_option maxRecDepth 8000 in
/-- C6, what the code computes for `MessageContextKeys = ["a", "b"]` with
`a = "x"` and `b = "y"`: the message handed to the output is ` x y`, with a
space in front, and so is the header message for the same keys; every
further key adds one more space in front; the plain line then has two
spaces in front of each aggregate. -/
theorem aggregate_of_two_values_has_leading_space :
    ((messageLoop ["a", "b"] none).run (World.start xyContext)).1 = some (Value.str " x y")
      ∧ ((headerMessageLoop ["a", "b"] none).run (World.start xyContext)).1
          = some (Value.str " x y")
      ∧ ((messageLoop ["a", "b", "a"] none).run (World.start xyContext)).1
          = some (Value.str "  x y x")
      ∧ (run (exampleHost 200 2000000)
          { allFieldsConfig with MessageContextKeys := ["a", "b"], MessageHeaderKeys := ["a", "b"] }
          xyContext).filter Event.isOutput
          = [Event.Info "200  2ms 10.0.0.5 GET /health  x y  x y"] := by
  decide

set_option maxRecDepth 8000 in
/-- C7, the claim fails for an empty string and for headers: for the key
list `["a"]`, the header aggregate of a request without header `a` is the
non-nil empty string, and so is the context aggregate when the empty string
is stored under `a`; the plain line then ends with a space. -/
theorem empty_values_give_non_nil_aggregate :
    ((headerMessageLoop ["a"] none).run (World.start healthContext)).1 = some (Value.str "")
      ∧ ((messageLoop ["a"] none).run (World.start emptyValueContext)).1 = some (Value.str "")
      ∧ (run (exampleHost 200 2000000) { allFieldsConfig with MessageHeaderKeys := ["a"] }
          healthContext).filter Event.isOutput = [Event.Info "200  2ms 10.0.0.5 GET /health "] := by
  decide

/-- C7 as amended: for a non-empty key list whose keys are all absent from
the context store, the context aggregate is nil, so the plain line gets no
message suffix and the title row of `Columnize` no `Message` column. The
header aggregate over a non-empty key list is never nil. -/
theorem absent_context_values_give_nil_aggregate (keys : List String) (w : World)
    (hne : keys ≠ []) (habs : ∀ key ∈ keys, w.ctx.Values key = none) :
    ((messageLoop keys none).run w).1 = none
      ∧ ((headerMessageLoop keys none).run w).1 ≠ none
      ∧ (∀ (latency : Duration) (status ip method path : String) (headerMessage : Option Value),
          plainLine latency status ip method path ((messageLoop keys none).run w).1 headerMessage
            = status ++ " " ++ padLeft 4 (Duration.String latency) ++ " " ++ ip ++ " " ++ method
                ++ " " ++ path ++ aggregateSuffix headerMessage)
      ∧ (∀ headerMessage : Option Value,
          elementsFromLine (columnizeTitles ((messageLoop keys none).run w).1 headerMessage)
            = baseTitles ++ (if headerMessage.isSome then ["HeaderMessage"] else [])) := by
  have hm : ((messageLoop keys none).run w).1 = none := by
    rw [messageLoop_run]
    exact contextAggregate_absent w.ctx keys habs
  refine ⟨hm, ?_, ?_, ?_⟩
  · rw [headerMessageLoop_run]
    exact headerAggregate_ne_none w.ctx keys hne
  · intro latency status ip method path headerMessage
    rw [hm]
    cases headerMessage <;> simp [plainLine, aggregateSuffix, fmtV]
  · intro headerMessage
    rw [hm, titles_cells]
    simp

/-- C7 as amended, for the key list `["a"]` and a request whose context
store is empty. -/
theorem absent_context_values_give_nil_aggregate_witness :
    (["a"] ≠ ([] : List String) ∧ ∀ key ∈ ["a"], (World.start healthContext).ctx.Values key = none)
      ∧ ((messageLoop ["a"] none).run (World.start healthContext)).1 = none
      ∧ ((headerMessageLoop ["a"] none).run (World.start healthContext)).1 ≠ none :=
  have hne : ["a"] ≠ ([] : List String) := by decide
  have habs : ∀ key ∈ ["a"], (World.start healthContext).ctx.Values key = none :=
    fun _ _ => rfl
  have ht := absent_context_values_give_nil_aggregate ["a"] (World.start healthContext) hne habs
  ⟨⟨hne, habs⟩, ht.1, ht.2.1⟩

/-- C8: with an empty `MessageContextKeys` (resp. `MessageHeaderKeys`) the
message (resp. header message) handed to the output strategy is nil whatever
the request holds, and both formatters render a nil aggregate as nothing:
the plain line is the five fields, followed only by the other aggregate when
that one is non-nil, so the text `<nil>` occurs in it only if it occurs in
the five fields; the rows that `Columnize` hands to the aligner have no
`Message` (resp. `HeaderMessage`) title and no cell for the nil aggregate. -/
theorem empty_key_list_renders_nothing (h : Host) (cfg : Config) (ctx : Context)
    (hs : skipped cfg ctx = false) :
    (cfg.MessageContextKeys = [] → ∀ w : World,
        ((messageLoop cfg.MessageContextKeys none).run w).1 = none)
      ∧ (cfg.MessageHeaderKeys = [] → ∀ w : World,
        ((headerMessageLoop cfg.MessageHeaderKeys none).run w).1 = none)
      ∧ (cfg.MessageContextKeys = [] → cfg.MessageHeaderKeys = [] → plainPath cfg = true →
          ∃ line : String,
            ((run h cfg ctx).filter Event.isOutput = [Event.Info line]
              ∨ (run h cfg ctx).filter Event.isOutput = [Event.Warn line])
            ∧ line = capturedStatus cfg (h.Next ctx) ++ " "
                ++ padLeft 4 (Duration.String ((h.clock 1).Sub (h.clock 0))) ++ " "
                ++ capturedIP cfg ctx ++ " " ++ capturedMethod cfg ctx ++ " "
                ++ capturedPath cfg ctx (h.Next ctx)
            ∧ line ≠ capturedStatus cfg (h.Next ctx) ++ " "
                ++ padLeft 4 (Duration.String ((h.clock 1).Sub (h.clock 0))) ++ " "
                ++ capturedIP cfg ctx ++ " " ++ capturedMethod cfg ctx ++ " "
                ++ capturedPath cfg ctx (h.Next ctx) ++ " " ++ fmtV none)
      ∧ (∀ headerMessage : Option Value,
          "Message" ∉ elementsFromLine (columnizeTitles none headerMessage))
      ∧ (∀ message : Option Value,
          "HeaderMessage" ∉ elementsFromLine (columnizeTitles message none))
      ∧ (cfg.MessageContextKeys = [] →
          (run h cfg ctx).filter Event.isOutput =
            [strategyCall h cfg (h.Next ctx).StatusCode (h.clock 1)
              ((h.clock 1).Sub (h.clock 0)) (capturedStatus cfg (h.Next ctx))
              (capturedIP cfg ctx) (capturedMethod cfg ctx) (capturedPath cfg ctx (h.Next ctx))
              none (headerAggregate (h.Next ctx) cfg.MessageHeaderKeys none)])
      ∧ (cfg.MessageHeaderKeys = [] →
          (run h cfg ctx).filter Event.isOutput =
            [strategyCall h cfg (h.Next ctx).StatusCode (h.clock 1)
              ((h.clock 1).Sub (h.clock 0)) (capturedStatus cfg (h.Next ctx))
              (capturedIP cfg ctx) (capturedMethod cfg ctx) (capturedPath cfg ctx (h.Next ctx))
              (contextAggregate (h.Next ctx) cfg.MessageContextKeys none) none])
      ∧ (∀ (latency : Duration) (status ip method path : String) (v : Value),
          plainLine latency status ip method path none none
              = status ++ " " ++ padLeft 4 (Duration.String latency) ++ " " ++ ip ++ " "
                ++ method ++ " " ++ path
            ∧ plainLine latency status ip method path none (some v)
              = status ++ " " ++ padLeft 4 (Duration.String latency) ++ " " ++ ip ++ " "
                ++ method ++ " " ++ path ++ " " ++ v.render
            ∧ plainLine latency status ip method path (some v) none
              = status ++ " " ++ padLeft 4 (Duration.String latency) ++ " " ++ ip ++ " "
                ++ method ++ " " ++ path ++ " " ++ v.render
            ∧ (¬ List.IsInfix "<nil>".data
                  (status ++ " " ++ padLeft 4 (Duration.String latency) ++ " " ++ ip ++ " "
                    ++ method ++ " " ++ path).data →
                ¬ List.IsInfix "<nil>".data
                  (plainLine latency status ip method path none none).data))
      ∧ (∀ (nowFormatted : String) (latency : Duration) (status ip method path : String)
          (v : Value),
          columnizeTitles none none = "Time | Status | Latency | IP | Method | Path"
            ∧ columnizeTitles none (some v)
              = "Time | Status | Latency | IP | Method | Path | HeaderMessage"
            ∧ columnizeTitles (some v) none
              = "Time | Status | Latency | IP | Method | Path | Message"
            ∧ columnizeLine nowFormatted latency status ip method path none none
              = nowFormatted ++ " | " ++ status ++ " | " ++ padLeft 4 (Duration.String latency)
                ++ " | " ++ ip ++ " | " ++ method ++ " | " ++ path
            ∧ columnizeLine nowFormatted latency status ip method path none (some v)
              = nowFormatted ++ " | " ++ status ++ " | " ++ padLeft 4 (Duration.String latency)
                ++ " | " ++ ip ++ " | " ++ method ++ " | " ++ path ++ " | " ++ v.render
            ∧ columnizeLine nowFormatted latency status ip method path (some v) none
              = nowFormatted ++ " | " ++ status ++ " | " ++ padLeft 4 (Duration.String latency)
                ++ " | " ++ ip ++ " | " ++ method ++ " | " ++ path ++ " | " ++ v.render)
      ∧ (∀ (nowFormatted : String) (latency : Duration) (status ip method path : String)
          (message headerMessage : Option Value),
          Columnize nowFormatted latency status ip method path message headerMessage
            = SimpleFormat [columnizeTitles message headerMessage,
                columnizeLine nowFormatted latency status ip method path message headerMessage]
              ++ "\n") := by
  refine ⟨?_, ?_, ?_, ?_, ?_, ?_, ?_, ?_, ?_, ?_⟩
  · intro hk w
    rw [hk]
    rfl
  · intro hk w
    rw [hk]
    rfl
  · intro hk hh hp
    refine ⟨_, ?_, rfl, ?_⟩
    · rw [output_of_run h cfg ctx hs]
      unfold plainPath at hp
      unfold outputEvent
      cases hl : cfg.LogFunc <;> cases hc : cfg.LogFuncCtx <;> cases hcol : cfg.Columns <;>
        simp [hl, hc, hcol] at hp
      cases h.StatusCodeNotSuccessful (h.Next ctx).StatusCode <;>
        simp [hk, hh, contextAggregate, headerAggregate, plainLine]
    · intro heq
      have hlen := congrArg String.length heq
      have h5 : (fmtV none).length = 5 := rfl
      have h1 : " ".length = 1 := rfl
      simp only [String.length_append, h5, h1] at hlen
      omega
  · intro headerMessage
    rw [titles_cells]
    cases headerMessage <;> simp [baseTitles]
  · intro message
    rw [titles_cells]
    cases message <;> simp [baseTitles]
  · intro hk
    rw [output_of_run h cfg ctx hs, outputEvent_eq_strategyCall, hk]
    rfl
  · intro hk
    rw [output_of_run h cfg ctx hs, outputEvent_eq_strategyCall, hk]
    rfl
  · intro latency status ip method path v
    refine ⟨plainLine_nil_nil _ _ _ _ _, ?_, ?_, ?_⟩
    · simp [plainLine, fmtV, String.append_assoc]
    · simp [plainLine, fmtV, String.append_assoc]
    · intro hno
      rw [plainLine_nil_nil]
      exact hno
  · intro nowFormatted latency status ip method path v
    refine ⟨rfl, rfl, rfl, ?_, ?_, ?_⟩
    · simp [columnizeLine]
    · simp [columnizeLine, fmtV, String.append_assoc]
    · simp [columnizeLine, fmtV, String.append_assoc]
  · intro nowFormatted latency status ip method path message headerMessage
    rfl

/-- C8 at the example request, whose configuration has no message keys. -/
theorem empty_key_list_renders_nothing_witness :
    (skipped allFieldsConfig healthContext = false
      ∧ allFieldsConfig.MessageContextKeys = [] ∧ allFieldsConfig.MessageHeaderKeys = []
      ∧ plainPath allFieldsConfig = true)
      ∧ (∃ line : String,
          ((run (exampleHost 200 2000000) allFieldsConfig healthContext).filter Event.isOutput
              = [Event.Info line]
            ∨ (run (exampleHost 200 2000000) allFieldsConfig healthContext).filter Event.isOutput
              = [Event.Warn line])
          ∧ line = capturedStatus allFieldsConfig ((exampleHost 200 2000000).Next healthContext)
              ++ " "
              ++ padLeft 4 (Duration.String
                  (((exampleHost 200 2000000).clock 1).Sub ((exampleHost 200 2000000).clock 0)))
              ++ " " ++ capturedIP allFieldsConfig healthContext ++ " "
              ++ capturedMethod allFieldsConfig healthContext ++ " "
              ++ capturedPath allFieldsConfig healthContext
                  ((exampleHost 200 2000000).Next healthContext))
      ∧ (∀ w : World, ((messageLoop allFieldsConfig.MessageContextKeys none).run w).1 = none)
      ∧ (∀ w : World,
          ((headerMessageLoop allFieldsConfig.MessageHeaderKeys none).run w).1 = none)
      ∧ (run (exampleHost 200 2000000) allFieldsConfig healthContext).filter Event.isOutput =
          [strategyCall (exampleHost 200 2000000) allFieldsConfig
            ((exampleHost 200 2000000).Next healthContext).StatusCode
            ((exampleHost 200 2000000).clock 1)
            (((exampleHost 200 2000000).clock 1).Sub ((exampleHost 200 2000000).clock 0))
            (capturedStatus allFieldsConfig ((exampleHost 200 2000000).Next healthContext))
            (capturedIP allFieldsConfig healthContext)
            (capturedMethod allFieldsConfig healthContext)
            (capturedPath allFieldsConfig healthContext
              ((exampleHost 200 2000000).Next healthContext))
            none
            (headerAggregate ((exampleHost 200 2000000).Next healthContext)
              allFieldsConfig.MessageHeaderKeys none)] :=
  have ht := empty_key_list_renders_nothing (exampleHost 200 2000000) allFieldsConfig
    healthContext rfl
  have hl := ht.2.2.1 rfl rfl rfl
  ⟨⟨rfl, rfl, rfl, rfl⟩, ⟨hl.choose, hl.choose_spec.1, hl.choose_spec.2.1⟩, ht.1 rfl,
    ht.2.1 rfl, ht.2.2.2.2.2.1 rfl⟩

/-! ## `Columnize` -/

/-- C9, the claim fails for a field that holds a pipe: with the path `/a|b`
the value row splits into seven cells and the title row into six. -/
theorem pipe_in_a_field_adds_a_value_cell :
    elementsFromLine (columnizeTitles none none)
        = ["Time", "Status", "Latency", "IP", "Method", "Path"]
      ∧ elementsFromLine
          (columnizeLine "2024/03/09 - 15:04:05" 5000000 "200" "127.0.0.1" "GET" "/a|b" none none)
        = ["2024/03/09 - 15:04:05", "200", "5ms", "127.0.0.1", "GET", "/a", "b"]
      ∧ (elementsFromLine
          (columnizeLine "2024/03/09 - 15:04:05" 5000000 "200" "127.0.0.1" "GET" "/a|b" none
            none)).length
        ≠ (elementsFromLine (columnizeTitles none none)).length := by
  decide

/-- C9 as amended: the title row handed to the aligner has the cells Time,
Status, Latency, IP, Method, Path, then Message exactly when the message is
non-nil, then HeaderMessage exactly when the header message is non-nil; and
when no field and no rendering of a non-nil aggregate holds a pipe, the
value row has as many cells, in the same order: the trimmed time, status,
latency, ip, method, path, message and header message. -/
theorem columnize_rows_have_the_same_cells (nowFormatted : String) (latency : Duration)
    (status ip method path : String) (message headerMessage : Option Value)
    (hp : ∀ s ∈ textFields nowFormatted status ip method path message headerMessage,
      '|' ∉ s.data) :
    elementsFromLine (columnizeTitles message headerMessage)
        = ["Time", "Status", "Latency", "IP", "Method", "Path"]
          ++ (if message.isSome then ["Message"] else [])
          ++ (if headerMessage.isSome then ["HeaderMessage"] else [])
      ∧ elementsFromLine
          (columnizeLine nowFormatted latency status ip method path message headerMessage)
        = [TrimSpace nowFormatted, TrimSpace status, Duration.String latency, TrimSpace ip,
            TrimSpace method, TrimSpace path]
          ++ (optionalCell message).map TrimSpace ++ (optionalCell headerMessage).map TrimSpace
      ∧ (elementsFromLine
          (columnizeLine nowFormatted latency status ip method path message headerMessage)).length
        = (elementsFromLine (columnizeTitles message headerMessage)).length := by
  have hv := elementsFromLine_columnizeLine nowFormatted latency status ip method path message
    headerMessage hp
  have ht := titles_cells_eq message headerMessage
  refine ⟨titles_cells message headerMessage, hv, ?_⟩
  rw [hv, ht]
  exact (titleCells_length nowFormatted latency status ip method path message headerMessage).symm

/-- C9 as amended, for a request with a message and no header message. -/
theorem columnize_rows_have_the_same_cells_witness :
    (∀ s ∈ textFields "2024/03/09 - 15:04:05" "200" "127.0.0.1" "GET" "/"
        (some (Value.str "hello")) none, '|' ∉ s.data)
      ∧ (elementsFromLine
          (columnizeLine "2024/03/09 - 15:04:05" 5000000 "200" "127.0.0.1" "GET" "/"
            (some (Value.str "hello")) none)).length
        = (elementsFromLine (columnizeTitles (some (Value.str "hello")) none)).length :=
  have hp : ∀ s ∈ textFields "2024/03/09 - 15:04:05" "200" "127.0.0.1" "GET" "/"
      (some (Value.str "hello")) none, '|' ∉ s.data := by decide
  ⟨hp, (columnize_rows_have_the_same_cells "2024/03/09 - 15:04:05" 5000000 "200" "127.0.0.1"
    "GET" "/" (some (Value.str "hello")) none hp).2.2⟩

set_option maxRecDepth 8000 in
/-- C10, the claim fails at its own example, for a cell that holds a
newline and for a cell too wide for `fmt`: for status 200, latency 5ms, ip
127.0.0.1, method GET and path `/` the title line ends with the unpadded
cell `Path` and the value line with the unpadded cell `/`, so the last
column is three runes narrower in the value line; with the path `/a`
newline `b` the result has three newlines; and with an ip of 10000010 runes
`fmt` gives up on the width of the IP column, prints `%!(NOVERB)` and the
remaining cells as `%!(EXTRA ...)` in both rows, and the result is one
line. -/
theorem columnize_last_column_is_not_padded :
    Columnize "2024/03/09 - 15:04:05" 5000000 "200" "127.0.0.1" "GET" "/" none none
        = "Time                   Status  Latency  IP         Method  Path" ++ "\n"
          ++ "2024/03/09 - 15:04:05  200     5ms      127.0.0.1  GET     /" ++ "\n"
      ∧ "Time                   Status  Latency  IP         Method  Path".length
        = "2024/03/09 - 15:04:05  200     5ms      127.0.0.1  GET     /".length + 3
      ∧ (Columnize "2024/03/09 - 15:04:05" 5000000 "200" "127.0.0.1" "GET" "/a\nb" none
          none).data.count '\n' = 3
      ∧ Columnize "2024/03/09 - 15:04:05" 5000000 "200" wideField "GET" "/" none none
        = "Time                   Status  Latency  %!(NOVERB)%!(EXTRA string=IP, string=Method, string=Path)"
          ++ ("2024/03/09 - 15:04:05  200     5ms      %!(NOVERB)%!(EXTRA string=" ++ wideField
            ++ ", string=GET, string=/)") ++ "\n" :=
  ⟨by decide, by decide, by decide,
    Columnize_wide_ip wideField wideField_no_pipe wideField_no_space wideField_length⟩

/-- C10 as amended: when no trimmed cell of the value row holds a newline
and every column but the last is narrower than 10000010 runes, the result
is the title line, a newline, the value line and one newline, neither line
holding a newline and the value line not being empty; in each line every
cell but the last of that line is padded with spaces to the width of its
column and followed by two spaces, and the last cell is written unpadded;
the width of a column is the rune length of the wider of its title cell and
its value cell, or of its only cell; when no field holds a pipe the value
cells are the trimmed fields and every column has both cells. -/
theorem columnize_two_aligned_rows (nowFormatted : String) (latency : Duration)
    (status ip method path : String) (message headerMessage : Option Value)
    (hn : ∀ e ∈ elementsFromLine
        (columnizeLine nowFormatted latency status ip method path message headerMessage),
      '\n' ∉ e.data)
    (hw : ∀ w ∈ (widthsFromLines [columnizeTitles message headerMessage,
        columnizeLine nowFormatted latency status ip method path message
          headerMessage]).dropLast, w < 10000010) :
    ∃ titleLine valueLine : String,
      Columnize nowFormatted latency status ip method path message headerMessage
          = titleLine ++ "\n" ++ valueLine ++ "\n"
        ∧ '\n' ∉ titleLine.data ∧ '\n' ∉ valueLine.data ∧ valueLine ≠ ""
        ∧ titleLine = alignedRow
            (widthsFromLines [columnizeTitles message headerMessage,
              columnizeLine nowFormatted latency status ip method path message headerMessage])
            (titleCells message headerMessage)
        ∧ valueLine = alignedRow
            (widthsFromLines [columnizeTitles message headerMessage,
              columnizeLine nowFormatted latency status ip method path message headerMessage])
            (elementsFromLine
              (columnizeLine nowFormatted latency status ip method path message headerMessage))
        ∧ (∀ i : Nat,
            (widthsFromLines [columnizeTitles message headerMessage,
              columnizeLine nowFormatted latency status ip method path message
                headerMessage])[i]? =
              match ((titleCells message headerMessage).map runeLen)[i]?,
                ((elementsFromLine (columnizeLine nowFormatted latency status ip method path
                  message headerMessage)).map runeLen)[i]? with
              | some w, some l => some (max w l)
              | some w, none => some w
              | none, some l => some l
              | none, none => none)
        ∧ ((∀ s ∈ textFields nowFormatted status ip method path message headerMessage,
              '|' ∉ s.data) →
            elementsFromLine
                (columnizeLine nowFormatted latency status ip method path message headerMessage)
              = valueCells nowFormatted latency status ip method path message headerMessage
            ∧ widthsFromLines [columnizeTitles message headerMessage,
                columnizeLine nowFormatted latency status ip method path message headerMessage]
              = columnWidths (titleCells message headerMessage)
                  (valueCells nowFormatted latency status ip method path message headerMessage))
        ∧ ∀ t v : String,
            (padRight (max (runeLen t) (runeLen v)) t).length = max (runeLen t) (runeLen v)
              ∧ (padRight (max (runeLen t) (runeLen v)) v).length
                = max (runeLen t) (runeLen v) := by
  have h2 := two_le_length_valueRow nowFormatted latency status ip method path message
    headerMessage
  have hlen := widthsFromLines_length (columnizeTitles message headerMessage)
    (columnizeLine nowFormatted latency status ip method path message headerMessage)
  refine ⟨_, _, Columnize_eq_rows nowFormatted latency status ip method path message
    headerMessage hw, ?_, ?_, ?_, rfl, rfl, ?_, ?_, ?_⟩
  · exact alignedRow_no_newline _ _ (titleCells_no_newline message headerMessage)
  · exact alignedRow_no_newline _ _ hn
  · exact alignedRow_ne_empty _ _ h2 (by omega)
  · intro i
    have hg := widthsFromLines_getElem? (columnizeTitles message headerMessage)
      (columnizeLine nowFormatted latency status ip method path message headerMessage) i
    rw [titles_cells_eq] at hg
    exact hg
  · intro hp
    exact ⟨elementsFromLine_columnizeLine nowFormatted latency status ip method path message
        headerMessage hp,
      widths_without_pipe nowFormatted latency status ip method path message headerMessage hp⟩
  · intro t v
    rw [padRight_length, padRight_length]
    unfold runeLen
    constructor <;> omega

set_option maxRecDepth 8000 in
/-- C10 as amended, at the example of the claim: two lines, the columns
Time to Method of equal width in both, no Message column. -/
theorem columnize_two_aligned_rows_witness :
    (∀ e ∈ elementsFromLine
        (columnizeLine "2024/03/09 - 15:04:05" 5000000 "200" "127.0.0.1" "GET" "/" none none),
        '\n' ∉ e.data)
      ∧ (∀ w ∈ (widthsFromLines [columnizeTitles none none,
          columnizeLine "2024/03/09 - 15:04:05" 5000000 "200" "127.0.0.1" "GET" "/" none
            none]).dropLast, w < 10000010)
      ∧ ∃ titleLine valueLine : String,
        Columnize "2024/03/09 - 15:04:05" 5000000 "200" "127.0.0.1" "GET" "/" none none
            = titleLine ++ "\n" ++ valueLine ++ "\n"
          ∧ '\n' ∉ titleLine.data ∧ '\n' ∉ valueLine.data ∧ valueLine ≠ "" :=
  have hn : ∀ e ∈ elementsFromLine
      (columnizeLine "2024/03/09 - 15:04:05" 5000000 "200" "127.0.0.1" "GET" "/" none none),
      '\n' ∉ e.data := by decide
  have hw : ∀ w ∈ (widthsFromLines [columnizeTitles none none,
      columnizeLine "2024/03/09 - 15:04:05" 5000000 "200" "127.0.0.1" "GET" "/" none
        none]).dropLast, w < 10000010 := by decide
  have ht := columnize_two_aligned_rows "2024/03/09 - 15:04:05" 5000000 "200" "127.0.0.1" "GET"
    "/" none none hn hw
  ⟨hn, hw, ht.choose, ht.choose_spec.choose, ht.choose_spec.choose_spec.1,
    ht.choose_spec.choose_spec.2.1, ht.choose_spec.choose_spec.2.2.1,
    ht.choose_spec.choose_spec.2.2.2.1⟩

/-! ## The columnized path -/

set_option maxRecDepth 8000 in
/-- C11, the claim fails for a disabled field: with `Columns` set and the
four capture flags `Status`, `IP`, `Method` and `Path` disabled, the title
row of the written table still has the columns Status, IP, Method and Path;
the cells below them are empty. -/
theorem columnized_titles_ignore_capture_flags :
    (run (exampleHost 200 2000000)
        { allFieldsConfig with
          Columns := true, Status := false, IP := false, Method := false, Path := false }
        healthContext).filter Event.isOutput
      = [Event.Write ("Time                   Status  Latency  IP  Method  Path" ++ "\n"
          ++ "2024/03/09 - 15:04:05          2ms                  " ++ "\n")] := by
  decide

/-- C11 as amended: on the columnized path the title row handed to the
aligner always has the six columns Time, Status, Latency, IP, Method, Path,
whatever the capture flags are, followed by Message exactly when the message
aggregate is non-nil and by HeaderMessage exactly when the header aggregate
is non-nil; the value of a disabled field is the empty string. -/
theorem columnized_titles_are_fixed (h : Host) (cfg : Config) (ctx : Context)
    (hs : skipped cfg ctx = false) (h1 : cfg.LogFunc = false) (h2 : cfg.LogFuncCtx = false)
    (h3 : cfg.Columns = true) :
    (run h cfg ctx).filter Event.isOutput =
        [Event.Write (Columnize (h.clock 1).Format ((h.clock 1).Sub (h.clock 0))
          (capturedStatus cfg (h.Next ctx)) (capturedIP cfg ctx) (capturedMethod cfg ctx)
          (capturedPath cfg ctx (h.Next ctx))
          (contextAggregate (h.Next ctx) cfg.MessageContextKeys none)
          (headerAggregate (h.Next ctx) cfg.MessageHeaderKeys none))]
      ∧ elementsFromLine
          (columnizeTitles (contextAggregate (h.Next ctx) cfg.MessageContextKeys none)
            (headerAggregate (h.Next ctx) cfg.MessageHeaderKeys none))
        = ["Time", "Status", "Latency", "IP", "Method", "Path"]
          ++ (if (contextAggregate (h.Next ctx) cfg.MessageContextKeys none).isSome
              then ["Message"] else [])
          ++ (if (headerAggregate (h.Next ctx) cfg.MessageHeaderKeys none).isSome
              then ["HeaderMessage"] else [])
      ∧ (cfg.Status = false → capturedStatus cfg (h.Next ctx) = "")
      ∧ (cfg.IP = false → capturedIP cfg ctx = "")
      ∧ (cfg.Method = false → capturedMethod cfg ctx = "")
      ∧ (cfg.Path = false → cfg.PathAfterHandler = false →
          capturedPath cfg ctx (h.Next ctx) = "") := by
  refine ⟨?_, titles_cells _ _, ?_, ?_, ?_, ?_⟩
  · rw [output_of_run h cfg ctx hs]
    simp [outputEvent, h1, h2, h3]
  · intro hf
    simp [capturedStatus, hf]
  · intro hf
    simp [capturedIP, hf]
  · intro hf
    simp [capturedMethod, hf]
  · intro hf hg
    simp [capturedPath, hf, hg]

/-- C11 as amended, for a request logged with `Columns` set and the status
disabled. -/
theorem columnized_titles_are_fixed_witness :
    (skipped { allFieldsConfig with Columns := true, Status := false } healthContext = false
      ∧ ({ allFieldsConfig with Columns := true, Status := false } : Config).LogFunc = false
      ∧ ({ allFieldsConfig with Columns := true, Status := false } : Config).LogFuncCtx = false
      ∧ ({ allFieldsConfig with Columns := true, Status := false } : Config).Columns = true)
      ∧ elementsFromLine
          (columnizeTitles
            (contextAggregate ((exampleHost 200 2000000).Next healthContext)
              ({ allFieldsConfig with Columns := true, Status := false } : Config).MessageContextKeys
              none)
            (headerAggregate ((exampleHost 200 2000000).Next healthContext)
              ({ allFieldsConfig with Columns := true, Status := false } : Config).MessageHeaderKeys
              none))
        = ["Time", "Status", "Latency", "IP", "Method", "Path"] ++ [] ++ [] :=
  ⟨⟨rfl, rfl, rfl, rfl⟩,
    (columnized_titles_are_fixed (exampleHost 200 2000000)
      { allFieldsConfig with Columns := true, Status := false } healthContext rfl rfl rfl rfl).2.1⟩

/-- C12: on the columnized path the only callback or sink call is one
`Printer.Write` of `Columnize` applied to the end time formatted with the
layout `2006/01/02 - 15:04:05`, the latency, status, ip, method, path,
message and header message; its output ends with a newline, and neither
`Info` nor `Warn` is called, whatever the status code is. -/
theorem columnized_path_writes_once (h : Host) (cfg : Config) (ctx : Context)
    (hs : skipped cfg ctx = false) (h1 : cfg.LogFunc = false) (h2 : cfg.LogFuncCtx = false)
    (h3 : cfg.Columns = true) :
    (run h cfg ctx).filter Event.isSinkOrCallback =
        [Event.Write (Columnize (h.clock 1).Format ((h.clock 1).Sub (h.clock 0))
          (capturedStatus cfg (h.Next ctx)) (capturedIP cfg ctx) (capturedMethod cfg ctx)
          (capturedPath cfg ctx (h.Next ctx))
          (contextAggregate (h.Next ctx) cfg.MessageContextKeys none)
          (headerAggregate (h.Next ctx) cfg.MessageHeaderKeys none))]
      ∧ (Columnize (h.clock 1).Format ((h.clock 1).Sub (h.clock 0))
          (capturedStatus cfg (h.Next ctx)) (capturedIP cfg ctx) (capturedMethod cfg ctx)
          (capturedPath cfg ctx (h.Next ctx))
          (contextAggregate (h.Next ctx) cfg.MessageContextKeys none)
          (headerAggregate (h.Next ctx) cfg.MessageHeaderKeys none)).data.getLast? = some '\n' := by
  refine ⟨?_, Columnize_ends_with_newline _ _ _ _ _ _ _ _⟩
  rw [sinkCalls_of_run h cfg ctx hs]
  simp [outputEvent, plainPath, h1, h2, h3]

set_option maxRecDepth 8000 in
/-- C12 for a request answered with status 404 at 15:04:05 on 2024/03/09,
with the trace-route step enabled. -/
theorem columnized_path_writes_once_witness :
    (skipped { allFieldsConfig with Columns := true, TraceRoute := true } healthContext = false
      ∧ ({ allFieldsConfig with Columns := true, TraceRoute := true } : Config).LogFunc = false
      ∧ ({ allFieldsConfig with Columns := true, TraceRoute := true } : Config).LogFuncCtx = false
      ∧ ({ allFieldsConfig with Columns := true, TraceRoute := true } : Config).Columns = true)
      ∧ (run (exampleHost 404 2000000) { allFieldsConfig with Columns := true, TraceRoute := true }
          healthContext).filter Event.isSinkOrCallback =
        [Event.Write (Columnize "2024/03/09 - 15:04:05" 2000000 "404" "10.0.0.5" "GET" "/health"
          none none)] :=
  ⟨⟨rfl, rfl, rfl, rfl⟩,
    (columnized_path_writes_once (exampleHost 404 2000000)
      { allFieldsConfig with Columns := true, TraceRoute := true } healthContext
      rfl rfl rfl rfl).1⟩

/-! ## The trace-route step -/

set_option maxRecDepth 8000 in
/-- C13, the claim fails when another strategy than the plain line emits
the log: with `TraceRoute` set and a matched route, the only callback or
sink call is the call of `LogFunc` when the line callback is set, the call
of `LogFuncCtx` when the context callback is set, and the write of the
table when `Columns` is set; `Trace` is not called. -/
theorem trace_is_not_called_after_callback_or_table :
    (run (exampleHost 200 2000000) { allFieldsConfig with LogFunc := true, TraceRoute := true }
        healthContext).filter Event.isSinkOrCallback
        = [Event.LogFunc ⟨2024, 3, 9, 15, 4, 5, 2000000⟩ 2000000 "200" "10.0.0.5" "GET"
            "/health" none none]
      ∧ (run (exampleHost 200 2000000)
          { allFieldsConfig with LogFuncCtx := true, TraceRoute := true }
          healthContext).filter Event.isSinkOrCallback = [Event.LogFuncCtx 2000000]
      ∧ (run (exampleHost 200 2000000) { allFieldsConfig with Columns := true, TraceRoute := true }
          healthContext).filter Event.isSinkOrCallback
        = [Event.Write ("Time                   Status  Latency  IP        Method  Path" ++ "\n"
            ++ "2024/03/09 - 15:04:05  200     2ms      10.0.0.5  GET     /health" ++ "\n")]
      ∧ healthContext.CurrentRoute = some ⟨"health"⟩ := by
  decide

/-- C13 as amended: for a request that is not skipped, with `TraceRoute`
set and a matched route, on the plain path the handler calls `Warn` or
`Info` with the line and then the route's `Trace` exactly once, with the
index that `HandlerIndex(-1)` returns; when the line callback or the
context callback is set, the callback is the only call and `Trace` is not
called. -/
theorem trace_follows_the_plain_line (h : Host) (cfg : Config) (ctx : Context) (r : Route)
    (hs : skipped cfg ctx = false) (ht : cfg.TraceRoute = true)
    (hr : (h.Next ctx).CurrentRoute = some r) :
    (cfg.LogFunc = false → cfg.LogFuncCtx = false → cfg.Columns = false →
        (run h cfg ctx).filter Event.isSinkOrCallback =
            [if h.StatusCodeNotSuccessful (h.Next ctx).StatusCode then
                Event.Warn (plainLine ((h.clock 1).Sub (h.clock 0))
                  (capturedStatus cfg (h.Next ctx)) (capturedIP cfg ctx) (capturedMethod cfg ctx)
                  (capturedPath cfg ctx (h.Next ctx))
                  (contextAggregate (h.Next ctx) cfg.MessageContextKeys none)
                  (headerAggregate (h.Next ctx) cfg.MessageHeaderKeys none))
              else
                Event.Info (plainLine ((h.clock 1).Sub (h.clock 0))
                  (capturedStatus cfg (h.Next ctx)) (capturedIP cfg ctx) (capturedMethod cfg ctx)
                  (capturedPath cfg ctx (h.Next ctx))
                  (contextAggregate (h.Next ctx) cfg.MessageContextKeys none)
                  (headerAggregate (h.Next ctx) cfg.MessageHeaderKeys none)),
              Event.Trace r ((h.Next ctx).HandlerIndex (-1))]
          ∧ (run h cfg ctx).filter Event.isTraceStep =
            [Event.HandlerIndex (-1), Event.Trace r ((h.Next ctx).HandlerIndex (-1))])
      ∧ (cfg.LogFunc = true →
          (run h cfg ctx).filter Event.isSinkOrCallback =
            [Event.LogFunc (h.clock 1) ((h.clock 1).Sub (h.clock 0))
              (capturedStatus cfg (h.Next ctx)) (capturedIP cfg ctx) (capturedMethod cfg ctx)
              (capturedPath cfg ctx (h.Next ctx))
              (contextAggregate (h.Next ctx) cfg.MessageContextKeys none)
              (headerAggregate (h.Next ctx) cfg.MessageHeaderKeys none)])
      ∧ (cfg.LogFunc = false → cfg.LogFuncCtx = true →
          (run h cfg ctx).filter Event.isSinkOrCallback =
            [Event.LogFuncCtx ((h.clock 1).Sub (h.clock 0))]) := by
  refine ⟨?_, ?_, ?_⟩
  · intro h1 h2 h3
    constructor
    · rw [sinkCalls_of_run h cfg ctx hs]
      simp [outputEvent, plainPath, traceCalls, h1, h2, h3, ht, hr]
    · rw [traceSteps_of_run h cfg ctx hs]
      simp [plainPath, traceEvents, h1, h2, h3, ht, hr, Event.isTraceStep]
  · intro h1
    rw [sinkCalls_of_run h cfg ctx hs]
    simp [outputEvent, plainPath, h1]
  · intro h1 h2
    rw [sinkCalls_of_run h cfg ctx hs]
    simp [outputEvent, plainPath, h1, h2]

/-- C13 as amended, on the plain path for the example request, which
matched the route `health`. -/
theorem trace_follows_the_plain_line_witness :
    (skipped { allFieldsConfig with TraceRoute := true } healthContext = false
      ∧ ({ allFieldsConfig with TraceRoute := true } : Config).TraceRoute = true
      ∧ ((exampleHost 200 2000000).Next healthContext).CurrentRoute = some ⟨"health"⟩)
      ∧ (run (exampleHost 200 2000000) { allFieldsConfig with TraceRoute := true }
          healthContext).filter Event.isTraceStep =
        [Event.HandlerIndex (-1),
          Event.Trace ⟨"health"⟩ (((exampleHost 200 2000000).Next healthContext).HandlerIndex (-1))] :=
  ⟨⟨rfl, rfl, rfl⟩,
    ((trace_follows_the_plain_line (exampleHost 200 2000000)
      { allFieldsConfig with TraceRoute := true } healthContext ⟨"health"⟩ rfl rfl rfl).1
      rfl rfl rfl).2⟩

/-- C14: when `TraceRoute` is disabled or the request matched no route, the
handler calls neither `Trace` nor `HandlerIndex`, for a skipped request as
for a logged one; the only callback or sink call of a request that is not
skipped is the emission of the log. -/
theorem no_trace_without_route (h : Host) (cfg : Config) (ctx : Context)
    (hno : cfg.TraceRoute = false ∨ (h.Next ctx).CurrentRoute = none) :
    (run h cfg ctx).filter Event.isTraceStep = []
      ∧ (skipped cfg ctx = true → (run h cfg ctx).filter Event.isSinkOrCallback = [])
      ∧ (skipped cfg ctx = false →
          (run h cfg ctx).filter Event.isSinkOrCallback =
            [strategyCall h cfg (h.Next ctx).StatusCode (h.clock 1)
              ((h.clock 1).Sub (h.clock 0)) (capturedStatus cfg (h.Next ctx))
              (capturedIP cfg ctx) (capturedMethod cfg ctx) (capturedPath cfg ctx (h.Next ctx))
              (contextAggregate (h.Next ctx) cfg.MessageContextKeys none)
              (headerAggregate (h.Next ctx) cfg.MessageHeaderKeys none)]) := by
  have htr : (traceEvents cfg (h.Next ctx)).filter Event.isTraceStep = [] := by
    unfold traceEvents
    rcases hno with hf | hn
    · simp [hf]
    · cases cfg.TraceRoute <;> simp [hn, Event.isTraceStep]
  have htc : traceCalls cfg (h.Next ctx) = [] := by
    unfold traceCalls
    rcases hno with hf | hn
    · simp [hf]
    · cases cfg.TraceRoute <;> simp [hn]
  refine ⟨?_, ?_, ?_⟩
  · cases hs : skipped cfg ctx
    · rw [traceSteps_of_run h cfg ctx hs, htr]
      simp
    · rw [run_skipped h cfg ctx hs]
      simp [Event.isTraceStep]
  · intro hs
    rw [run_skipped h cfg ctx hs]
    simp [Event.isSinkOrCallback, Event.isOutput]
  · intro hs
    rw [sinkCalls_of_run h cfg ctx hs, htc, outputEvent_eq_strategyCall]
    simp

/-- C14 for a request that matched no route, with `TraceRoute` set. -/
theorem no_trace_without_route_witness :
    (({ allFieldsConfig with TraceRoute := true } : Config).TraceRoute = false
        ∨ ((exampleHost 404 2000000).Next { healthContext with CurrentRoute := none }).CurrentRoute
          = none)
      ∧ (run (exampleHost 404 2000000) { allFieldsConfig with TraceRoute := true }
          { healthContext with CurrentRoute := none }).filter Event.isTraceStep = [] :=
  ⟨Or.inr rfl,
    (no_trace_without_route (exampleHost 404 2000000) { allFieldsConfig with TraceRoute := true }
      { healthContext with CurrentRoute := none } (Or.inr rfl)).1⟩

/-! ## The capture protocol -/

/-- C15: for a request that is not skipped, the path is read before
`ctx.Next()` exactly when `Path` is enabled and read after it exactly when
`PathAfterHandler` is set; each read calls `URL.RequestURI()` when `Query`
is set and `ctx.Path()` otherwise and returns its result; the path handed to
the output strategy is the value read after the chain when
`PathAfterHandler` is set, whatever `Path` is, and otherwise the value read
before the chain when `Path` is enabled and the empty string when it is
not. -/
theorem path_capture (h : Host) (cfg : Config) (ctx : Context)
    (hs : skipped cfg ctx = false) :
    (∃ before after : List Event,
        run h cfg ctx = before ++ [Event.Next] ++ after
          ∧ Event.Next ∉ before ∧ Event.Next ∉ after
          ∧ before.filter Event.isPathRead =
              (if cfg.Path then [if cfg.Query then Event.RequestURI else Event.Path] else [])
          ∧ after.filter Event.isPathRead =
              (if cfg.PathAfterHandler then [if cfg.Query then Event.RequestURI else Event.Path]
                else []))
      ∧ (∀ w : World, ((getPath cfg).run w).1
          = if cfg.Query then w.ctx.RequestURI else w.ctx.Path)
      ∧ (run h cfg ctx).filter Event.isOutput =
          [strategyCall h cfg (h.Next ctx).StatusCode (h.clock 1) ((h.clock 1).Sub (h.clock 0))
            (capturedStatus cfg (h.Next ctx)) (capturedIP cfg ctx) (capturedMethod cfg ctx)
            (if cfg.PathAfterHandler then
                (if cfg.Query then (h.Next ctx).RequestURI else (h.Next ctx).Path)
              else if cfg.Path then (if cfg.Query then ctx.RequestURI else ctx.Path)
              else "")
            (contextAggregate (h.Next ctx) cfg.MessageContextKeys none)
            (headerAggregate (h.Next ctx) cfg.MessageHeaderKeys none)] := by
  refine ⟨⟨eventsBeforeNext h cfg, eventsAfterNext h cfg ctx, run_split h cfg ctx hs,
    next_not_mem_before h cfg, next_not_mem_after h cfg ctx, filter_isPathRead_before h cfg,
    filter_isPathRead_after h cfg ctx⟩, ?_, ?_⟩
  · intro w
    rw [getPath_run]
    rfl
  · rw [output_of_run h cfg ctx hs, outputEvent_eq_strategyCall]
    rfl

/-- C15 for a request whose path the handler chain rewrites from `/health`
to `/status`, logged with `Path` disabled and `PathAfterHandler` set: the
line callback receives `/status`. -/
theorem path_capture_witness :
    skipped { allFieldsConfig with Path := false, PathAfterHandler := true, LogFunc := true }
        healthContext = false
      ∧ (run
          { Next := fun ctx => { ctx with Path := "/status" },
            clock := fun n => ⟨2024, 3, 9, 15, 4, 5, 2000000 * n⟩,
            StatusCodeNotSuccessful := fun c => decide (400 ≤ c) }
          { allFieldsConfig with Path := false, PathAfterHandler := true, LogFunc := true }
          healthContext).filter Event.isOutput =
        [Event.LogFunc ⟨2024, 3, 9, 15, 4, 5, 2000000⟩ 2000000 "200" "10.0.0.5" "GET" "/status"
          none none] :=
  ⟨rfl, (path_capture
    { Next := fun ctx => { ctx with Path := "/status" },
      clock := fun n => ⟨2024, 3, 9, 15, 4, 5, 2000000 * n⟩,
      StatusCodeNotSuccessful := fun c => decide (400 ≤ c) }
    { allFieldsConfig with Path := false, PathAfterHandler := true, LogFunc := true }
    healthContext rfl).2.2⟩

/-- C16: for a request that is not skipped, the clock is read once before
`ctx.Next()` and once right after it returns; the latency handed to the
output strategy is `endTime.Sub(startTime)` of these two readings, and the
end time handed to it is the second reading; when the monotonic clock did
not go back between the readings the latency is not negative, and it is the
exact difference of the readings when that fits a `time.Duration`. -/
theorem latency_is_end_minus_start (h : Host) (cfg : Config) (ctx : Context)
    (hs : skipped cfg ctx = false) :
    (run h cfg ctx).filter Event.isClockOrNext =
        [Event.Now (h.clock 0), Event.Next, Event.Now (h.clock 1)]
      ∧ (∃ before after : List Event,
          run h cfg ctx = before ++ [Event.Next, Event.Now (h.clock 1)] ++ after)
      ∧ (run h cfg ctx).filter Event.isOutput =
          [strategyCall h cfg (h.Next ctx).StatusCode (h.clock 1) ((h.clock 1).Sub (h.clock 0))
            (capturedStatus cfg (h.Next ctx)) (capturedIP cfg ctx) (capturedMethod cfg ctx)
            (capturedPath cfg ctx (h.Next ctx))
            (contextAggregate (h.Next ctx) cfg.MessageContextKeys none)
            (headerAggregate (h.Next ctx) cfg.MessageHeaderKeys none)]
      ∧ ((h.clock 0).mono ≤ (h.clock 1).mono → (0 : Int) ≤ (h.clock 1).Sub (h.clock 0))
      ∧ ((h.clock 0).mono ≤ (h.clock 1).mono →
          (h.clock 1).mono - (h.clock 0).mono ≤ maxDuration →
          (h.clock 1).Sub (h.clock 0) = (h.clock 1).mono - (h.clock 0).mono) := by
  refine ⟨clock_reads_of_run h cfg ctx hs, ?_, ?_, Sub_nonneg _ _, Sub_eq_diff _ _⟩
  · refine ⟨eventsBeforeNext h cfg,
      afterEvents cfg ++ emissionEvents h cfg ctx (h.Next ctx) (h.clock 0) (h.clock 1), ?_⟩
    rw [run_split h cfg ctx hs]
    simp [eventsAfterNext]
  · rw [output_of_run h cfg ctx hs, outputEvent_eq_strategyCall]

set_option maxRecDepth 8000 in
/-- C16 for the example request, whose handler chain takes 2ms. -/
theorem latency_is_end_minus_start_witness :
    (skipped { allFieldsConfig with LogFuncCtx := true } healthContext = false
      ∧ ((exampleHost 200 2000000).clock 0).mono ≤ ((exampleHost 200 2000000).clock 1).mono
      ∧ ((exampleHost 200 2000000).clock 1).mono - ((exampleHost 200 2000000).clock 0).mono
          ≤ maxDuration)
      ∧ (run (exampleHost 200 2000000) { allFieldsConfig with LogFuncCtx := true }
          healthContext).filter Event.isOutput = [Event.LogFuncCtx 2000000]
      ∧ (0 : Int) ≤ ((exampleHost 200 2000000).clock 1).Sub ((exampleHost 200 2000000).clock 0)
      ∧ ((exampleHost 200 2000000).clock 1).Sub ((exampleHost 200 2000000).clock 0)
          = ((exampleHost 200 2000000).clock 1).mono - ((exampleHost 200 2000000).clock 0).mono :=
  have hm : ((exampleHost 200 2000000).clock 0).mono ≤ ((exampleHost 200 2000000).clock 1).mono := by
    decide
  have hr : ((exampleHost 200 2000000).clock 1).mono - ((exampleHost 200 2000000).clock 0).mono
      ≤ maxDuration := by
    decide
  have ht := latency_is_end_minus_start (exampleHost 200 2000000)
    { allFieldsConfig with LogFuncCtx := true } healthContext rfl
  ⟨⟨rfl, hm, hr⟩, ht.2.2.1, ht.2.2.2.1 hm, ht.2.2.2.2 hm hr⟩

/-- C17: for a request that is not skipped, `ctx.Next()` is called exactly
once; before it come the skip test, the first clock reading and the reads
of the remote address, the method and the path, each if enabled; after it
come the second clock reading, the reads of the path, the status code, the
context values and the headers, then the emission; no callback and no sink
operation comes before it. -/
theorem capture_order (h : Host) (cfg : Config) (ctx : Context)
    (hs : skipped cfg ctx = false) :
    ∃ before after : List Event,
      run h cfg ctx = before ++ [Event.Next] ++ after
        ∧ Event.Next ∉ before ∧ Event.Next ∉ after
        ∧ before = (if cfg.skip.isSome then [Event.skip] else []) ++ [Event.Now (h.clock 0)]
            ++ (if cfg.IP then [Event.RemoteAddr] else [])
            ++ (if cfg.Method then [Event.Method] else [])
            ++ (if cfg.Path then [if cfg.Query then Event.RequestURI else Event.Path] else [])
        ∧ after = [Event.Now (h.clock 1)]
            ++ (if cfg.PathAfterHandler then [if cfg.Query then Event.RequestURI else Event.Path]
                else [])
            ++ (if cfg.Status then [Event.GetStatusCode] else [])
            ++ cfg.MessageContextKeys.map Event.ValuesGet
            ++ cfg.MessageHeaderKeys.map Event.GetHeader
            ++ emissionEvents h cfg ctx (h.Next ctx) (h.clock 0) (h.clock 1)
        ∧ before.filter Event.isSinkOrCallback = []
        ∧ after.filter Event.isSinkOrCallback = (run h cfg ctx).filter Event.isSinkOrCallback := by
  refine ⟨eventsBeforeNext h cfg, eventsAfterNext h cfg ctx, run_split h cfg ctx hs,
    next_not_mem_before h cfg, next_not_mem_after h cfg ctx, ?_, ?_,
    filter_isSinkOrCallback_before h cfg, ?_⟩
  · simp [eventsBeforeNext, skipEvents, beforeEvents, pathEvent]
  · simp [eventsAfterNext, afterEvents, pathEvent]
  · have hx : Event.isSinkOrCallback Event.Next = false := rfl
    rw [run_split h cfg ctx hs]
    simp [List.filter_append, List.filter_cons, filter_isSinkOrCallback_before h cfg, hx]

/-- C17 for the example request on the plain path. -/
theorem capture_order_witness :
    skipped allFieldsConfig healthContext = false
      ∧ ∃ before after : List Event,
        run (exampleHost 200 2000000) allFieldsConfig healthContext
            = before ++ [Event.Next] ++ after
          ∧ Event.Next ∉ before ∧ Event.Next ∉ after :=
  have ht := capture_order (exampleHost 200 2000000) allFieldsConfig healthContext rfl
  ⟨rfl, ht.choose, ht.choose_spec.choose, ht.choose_spec.choose_spec.1,
    ht.choose_spec.choose_spec.2.1, ht.choose_spec.choose_spec.2.2.1⟩

/-- C18: for a request that is not skipped, the output strategy receives as
status the rendering by `strconv.Itoa` of the status code read after the
chain when `Status` is enabled, as ip the remote address when `IP` is
enabled, as method the request method when `Method` is enabled, and the
empty string for each of the three that is disabled; the digits of the
rendering of a status code that is not negative denote that code. -/
theorem disabled_fields_are_empty (h : Host) (cfg : Config) (ctx : Context)
    (hs : skipped cfg ctx = false) :
    (run h cfg ctx).filter Event.isOutput =
        [strategyCall h cfg (h.Next ctx).StatusCode (h.clock 1) ((h.clock 1).Sub (h.clock 0))
          (if cfg.Status then Itoa (h.Next ctx).StatusCode else "")
          (if cfg.IP then ctx.RemoteAddr else "")
          (if cfg.Method then ctx.Method else "")
          (capturedPath cfg ctx (h.Next ctx))
          (contextAggregate (h.Next ctx) cfg.MessageContextKeys none)
          (headerAggregate (h.Next ctx) cfg.MessageHeaderKeys none)]
      ∧ (0 ≤ (h.Next ctx).StatusCode →
          decimalValue (Itoa (h.Next ctx).StatusCode).data = (h.Next ctx).StatusCode.natAbs) := by
  refine ⟨?_, decimalValue_Itoa _⟩
  rw [output_of_run h cfg ctx hs, outputEvent_eq_strategyCall]
  rfl

set_option maxRecDepth 8000 in
/-- C18 for a request answered with status 404, logged through the line
callback with `IP` disabled. -/
theorem disabled_fields_are_empty_witness :
    (skipped { allFieldsConfig with IP := false, LogFunc := true } healthContext = false
      ∧ (0 : Int) ≤ ((exampleHost 404 2000000).Next healthContext).StatusCode)
      ∧ (run (exampleHost 404 2000000) { allFieldsConfig with IP := false, LogFunc := true }
          healthContext).filter Event.isOutput =
        [Event.LogFunc ⟨2024, 3, 9, 15, 4, 5, 2000000⟩ 2000000 "404" "" "GET" "/health"
          none none]
      ∧ decimalValue (Itoa ((exampleHost 404 2000000).Next healthContext).StatusCode).data
          = ((exampleHost 404 2000000).Next healthContext).StatusCode.natAbs :=
  have hc : (0 : Int) ≤ ((exampleHost 404 2000000).Next healthContext).StatusCode := by decide
  have ht := disabled_fields_are_empty (exampleHost 404 2000000)
    { allFieldsConfig with IP := false, LogFunc := true } healthContext rfl
  ⟨⟨rfl, hc⟩, ht.1, ht.2 hc⟩

end logger
